import Mathlib

/-!
Verification of the pen-and-paper geometric-mean estimation game.

This file gives a shallow embedding, in Lean 4, of the core algorithms of the
repository (trivia-guess rounding and sampling, the exact / log-linear /
table-based geometric-mean estimators, the practice-mode answer evaluator and
configuration, and the Monte-Carlo evaluation harness), together with theorems
settling the specification's claims about them.

Modelling conventions:
* `u64` is modelled as `ℕ`; saturating `u64` operations are modelled with
  explicit `min _ U64MAX`.
* `f64` values are modelled as `ℚ` wherever the source only performs field
  operations, floors and comparisons on them, and as `ℝ` where the source
  uses transcendental functions (`exp`, `ln`).  Non-finite `f64` inputs
  (NaN and the infinities), which only matter for constructor validation,
  are modelled by the inductive type `F64`.
* `floor(log10 v)` on a positive value is modelled by `Int.log 10 v`.
* The source's comparison of logarithmic distances
  `|ln t - ln lo| <= |ln t - ln hi|` is embedded by the equivalent decidable
  rational comparison of `t * t` with `lo * hi`; the theorem
  `choose_closest_in_log_space_log_spec` proves the equivalence with the
  real-logarithm formulation used by the source.
-/

namespace PenPaper

/-! ## Trivia guess distribution (`src/trivia_guess.rs`) -/

/-- `u64::MAX`. -/
def U64MAX : ℕ := 18446744073709551615

/-- Rust `u64::saturating_add`. -/
def satAdd (a b : ℕ) : ℕ := min (a + b) U64MAX

/-- Rust `u64::saturating_mul`. -/
def satMul (a b : ℕ) : ℕ := min (a * b) U64MAX

/-- `TriviaGuessDistribution::find_bracketing_candidates`: given a target and a
step pattern, find the two consecutive valid values bracketing the target.
The Rust `as u64` cast of the non-negative floored quotient saturates at
`u64::MAX`, hence the `min _ U64MAX` on `k`. -/
def find_bracketing_candidates (target : ℚ) (base step_size : ℕ) : ℕ × ℕ :=
  if step_size = 0 then (base, base)
  else
    let offset : ℚ := target - (base : ℚ)
    let k : ℕ := if 0 ≤ offset then min (⌊offset / (step_size : ℚ)⌋).toNat U64MAX else 0
    (satAdd base (satMul k step_size), satAdd base (satMul (satAdd k 1) step_size))

/-- `TriviaGuessDistribution::choose_closest_in_log_space`: pick the candidate
with the smaller logarithmic distance to the target, preferring the low
candidate on ties.  The source compares `|ln t - ln lo|` with `|ln t - ln hi|`;
for positive arguments this is equivalent to comparing `t * t` with `lo * hi`
(proved below in `choose_closest_in_log_space_log_spec`), which keeps the
definition executable over `ℚ`. -/
def choose_closest_in_log_space (target : ℚ) (candidate_low candidate_high : ℕ) : ℕ :=
  if candidate_low = 0 ∨ candidate_high = 0 then
    if 0 < candidate_low then candidate_low else candidate_high
  else
    if (if candidate_low ≤ candidate_high
        then target * target ≤ ((candidate_low * candidate_high : ℕ) : ℚ)
        else ((candidate_low * candidate_high : ℕ) : ℚ) ≤ target * target)
    then candidate_low else candidate_high

/-- `TriviaGuessDistribution::round_to_trivia_value`: round a raw value to a
trivia-realistic integer using logarithmic-domain rounding. -/
def round_to_trivia_value (raw_value : ℚ) : ℕ :=
  if raw_value ≤ 1 then 1
  else
    let magnitude : ℤ := Int.log 10 raw_value
    if magnitude < 0 then 1
    else if 18 < magnitude then U64MAX
    else
      let magnitude_power : ℕ := 10 ^ magnitude.toNat
      let first_digit : ℕ := (⌊raw_value / (magnitude_power : ℚ)⌋).toNat
      let cands :=
        if first_digit = 1 then
          find_bracketing_candidates raw_value magnitude_power (magnitude_power / 20)
        else if first_digit ≤ 4 then
          find_bracketing_candidates raw_value (first_digit * magnitude_power) (magnitude_power / 10)
        else
          find_bracketing_candidates raw_value (first_digit * magnitude_power) (magnitude_power / 2)
      choose_closest_in_log_space raw_value cands.1 cands.2

/-- The divisor of `magnitude_power` that yields the rounding step for a given
first digit (`20`, `10` and `2` for the three bands of
`round_to_trivia_value`). -/
def stepDiv (d : ℕ) : ℕ := if d = 1 then 20 else if d ≤ 4 then 10 else 2

/-- Non-finite `f64` values matter only for input validation; `F64` models an
`f64` argument as either a finite rational or one of NaN / the infinities. -/
inductive F64 where
  | finite (val : ℚ)
  | nan
  | posInf
  | negInf
deriving DecidableEq

/-- `f64::is_finite`. -/
def F64.isFinite : F64 → Bool
  | .finite _ => true
  | _ => false

/-- IEEE-754 `<` on `f64`: every comparison involving NaN is false. -/
def F64.lt : F64 → F64 → Bool
  | .finite a, .finite b => decide (a < b)
  | .finite _, .posInf => true
  | .negInf, .finite _ => true
  | .negInf, .posInf => true
  | _, _ => false

/-- The rational carried by a finite `F64` (only used after validation has
ruled out the non-finite cases). -/
def F64.toRat : F64 → ℚ
  | .finite q => q
  | _ => 0

/-- The `f64` transcendental functions are rational-valued approximations; the
embedding abstracts them as an explicit parameter record.  None of the claims
proved here depends on their values. -/
structure FloatOps where
  exp : ℚ → ℚ
  ln : ℚ → ℚ
  sqrt : ℚ → ℚ
  cos : ℚ → ℚ
  pi : ℚ

/-- A concrete instance of `FloatOps`, used for witnesses. -/
def trivialFloatOps : FloatOps :=
  { exp := fun q => q, ln := fun q => q, sqrt := fun q => q, cos := fun q => q, pi := 0 }

/-- `TriviaGuessDistributionError` from `src/trivia_guess.rs`. -/
inductive TriviaGuessDistributionError where
  | InvalidCorrectAnswer
  | InvalidLogStdDev
  | LogStdDevTooLarge
deriving DecidableEq

/-- `TriviaGuessDistribution`: the validated log-normal guess distribution.
After validation `log_std_dev` is finite, so it is stored as a rational. -/
structure TriviaGuessDistribution where
  correct_answer : ℕ
  ln_correct_answer : ℚ
  log_std_dev : ℚ
deriving DecidableEq

/-- `TriviaGuessDistribution::new`. -/
def TriviaGuessDistribution.new (ops : FloatOps) (correct_answer : ℕ) (log_std_dev : F64) :
    Except TriviaGuessDistributionError TriviaGuessDistribution :=
  if correct_answer = 0 then .error .InvalidCorrectAnswer
  else if !log_std_dev.isFinite || log_std_dev.lt (.finite 0) then .error .InvalidLogStdDev
  else if (F64.finite 50).lt log_std_dev then .error .LogStdDevTooLarge
  else .ok { correct_answer := correct_answer,
             ln_correct_answer := ops.ln (correct_answer : ℚ),
             log_std_dev := log_std_dev.toRat }

/-- The injected randomness capability: a stream of uniform draws in `[0, 1)`,
one consumed per `rng.gen_range(0.0..1.0)` call. -/
structure RngState where
  draws : List ℚ
deriving DecidableEq

/-- One uniform draw (`rng.gen_range(0.0..1.0)`). -/
def RngState.gen_range_01 : RngState → ℚ × RngState
  | ⟨[]⟩ => (0, ⟨[]⟩)
  | ⟨x :: rest⟩ => (x, ⟨rest⟩)

/-- `TriviaGuessDistribution::sample`: Box–Muller a standard normal deviate,
shift into the log-normal around the correct answer, and round.  When
`log_std_dev = 0` the sampling is skipped entirely and the rng is untouched. -/
def TriviaGuessDistribution.sample (ops : FloatOps) (d : TriviaGuessDistribution)
    (rng : RngState) : ℕ × RngState :=
  if d.log_std_dev = 0 then
    (round_to_trivia_value ((d.correct_answer : ℕ) : ℚ), rng)
  else
    let p1 := rng.gen_range_01
    let p2 := p1.2.gen_range_01
    let normal_sample : ℚ := ops.sqrt (-2 * ops.ln p1.1) * ops.cos (2 * ops.pi * p2.1)
    let ln_sample : ℚ := d.ln_correct_answer + d.log_std_dev * normal_sample
    let raw_value : ℚ := ops.exp ln_sample
    (round_to_trivia_value raw_value, p2.2)

/-! ## Practice mode (`src/practice_mode.rs`) -/

/-- `ConfigurationError` from `src/practice_mode.rs`. -/
inductive ConfigurationError where
  | ZeroTeamSize
  | InvalidAnswerRange
deriving DecidableEq

/-- `PracticeModeConfig`. -/
structure PracticeModeConfig where
  team_size : ℕ
  log_std_dev : F64
  min_answer : ℕ
  max_answer : ℕ
deriving DecidableEq

/-- `PracticeModeConfig::new`. -/
def PracticeModeConfig.new (team_size : ℕ) (log_std_dev : F64)
    (min_answer max_answer : ℕ) : Except ConfigurationError PracticeModeConfig :=
  if team_size = 0 then .error .ZeroTeamSize
  else if min_answer ≥ max_answer then .error .InvalidAnswerRange
  else .ok { team_size := team_size, log_std_dev := log_std_dev,
             min_answer := min_answer, max_answer := max_answer }

/-- `AnswerEvaluation`. -/
inductive AnswerEvaluation where
  | Correct
  | Excellent
  | Incorrect
deriving DecidableEq

/-- Rust saturating `f64 → u64` cast applied to `x.floor()`: negative values
clamp to `0`, values beyond `u64::MAX` clamp to `u64::MAX`. -/
def floor_as_u64 (x : ℚ) : ℕ := min (⌊x⌋.toNat) U64MAX

/-- Rust saturating `f64 → u64` cast applied to `x.ceil()`. -/
def ceil_as_u64 (x : ℚ) : ℕ := min (⌈x⌉.toNat) U64MAX

/-- `evaluate_answer` from `src/practice_mode.rs`. -/
def evaluate_answer (user_answer : ℕ) (exact_geometric_mean estimation_result : ℚ) :
    AnswerEvaluation :=
  let estimation_floor := floor_as_u64 estimation_result
  let estimation_ceil := ceil_as_u64 estimation_result
  if user_answer = estimation_floor ∨ user_answer = estimation_ceil then
    .Correct
  else
    let error_margin := |estimation_result - exact_geometric_mean|
    let excellent_range_min := exact_geometric_mean - error_margin
    let excellent_range_max := exact_geometric_mean + error_margin
    if excellent_range_min < (user_answer : ℚ) ∧ (user_answer : ℚ) < excellent_range_max then
      .Excellent
    else
      .Incorrect

/-! ## Exact estimator (`geometric_mean` in `src/main.rs`, the `exact`
module's estimator used by the session and the harness) -/

namespace Exact

/-- `GeometricMeanError` from `src/main.rs`. -/
inductive GeometricMeanError where
  | EmptyInput
  | NonPositiveValue
deriving DecidableEq

open Classical in
/-- `geometric_mean`: `exp` of the mean of the natural logarithms. -/
noncomputable def geometric_mean (values : List ℝ) : Except GeometricMeanError ℝ :=
  if values = [] then .error .EmptyInput
  else if ∃ v ∈ values, v ≤ 0 then .error .NonPositiveValue
  else
    let log_sum : ℝ := (values.map Real.log).sum
    let log_mean : ℝ := log_sum / values.length
    .ok (Real.exp log_mean)

end Exact

/-! ## Log-linear estimator (`src/log_linear.rs`) -/

namespace LogLinear

/-- `GeometricMeanError` from `src/log_linear.rs`. -/
inductive GeometricMeanError where
  | EmptyInput
  | NonPositiveValue
  | ValueTooSmall
deriving DecidableEq

/-- The source's per-value validation loop: the first offending value decides
the error (`v ≤ 0` before `v < 1`). -/
def check_values : List ℚ → Option GeometricMeanError
  | [] => none
  | v :: rest =>
    if v ≤ 0 then some .NonPositiveValue
    else if v < 1 then some .ValueTooSmall
    else check_values rest

/-- `convert_to_log_linear`: `digit_count.remaining_digits` encoding. -/
def convert_to_log_linear (value : ℚ) : ℚ :=
  let digit_count : ℤ := Int.log 10 value + 1
  let fractional_part : ℚ := value / (10 : ℚ) ^ digit_count
  (digit_count : ℚ) + fractional_part

/-- `convert_from_log_linear`, clamping a fractional part below `0.1`. -/
def convert_from_log_linear (log_value : ℚ) : ℚ :=
  let digit_count : ℤ := ⌊log_value⌋
  let fractional_part : ℚ := log_value - (digit_count : ℚ)
  let clamped : ℚ := if fractional_part < 1/10 then 1/10 else fractional_part
  clamped * (10 : ℚ) ^ digit_count

/-- `log_linear_approximation`. -/
def log_linear_approximation (values : List ℚ) : Except GeometricMeanError ℚ :=
  if values = [] then .error .EmptyInput
  else
    match check_values values with
    | some e => .error e
    | none =>
      let sum : ℚ := (values.map convert_to_log_linear).sum
      let average : ℚ := sum / values.length
      .ok (convert_from_log_linear average)

end LogLinear

/-! ## Table-based estimator (`src/table_based.rs`) -/

namespace TableBased

/-- `GeometricMeanError` from `src/table_based.rs`. -/
inductive GeometricMeanError where
  | EmptyInput
  | NonPositiveValue
  | ValueTooSmall
deriving DecidableEq

/-- The source's per-value validation loop (same shape as the log-linear
estimator's). -/
def check_values : List ℚ → Option GeometricMeanError
  | [] => none
  | v :: rest =>
    if v ≤ 0 then some .NonPositiveValue
    else if v < 1 then some .ValueTooSmall
    else check_values rest

/-- `MULTIPLIERS`: the ten leading-digit multipliers (all ten `f64` constants
are exactly representable, so the rational list is exact). -/
def MULTIPLIERS : List ℚ := [1, 5/4, 8/5, 2, 5/2, 3, 4, 5, 6, 8]

/-- The descending scan of `find_forward_table_entry`: first index (from the
top) whose multiplier is at most the leading digits. -/
def find_forward_scan (leading_digits : ℚ) : List ℕ → ℕ
  | [] => 0
  | i :: rest =>
    if MULTIPLIERS.getD i 0 ≤ leading_digits then i
    else find_forward_scan leading_digits rest

/-- `find_forward_table_entry`: `for i in (0..MULTIPLIERS.len()).rev()`. -/
def find_forward_table_entry (leading_digits : ℚ) : ℕ :=
  find_forward_scan leading_digits (List.range MULTIPLIERS.length).reverse

/-- `number_to_log_representation`: `zeros * 10 + table_index`. -/
def number_to_log_representation (value : ℚ) : ℤ :=
  let zeros : ℤ := Int.log 10 value
  let leading_digits : ℚ := value / (10 : ℚ) ^ zeros
  let table_index : ℕ := find_forward_table_entry leading_digits
  zeros * 10 + (table_index : ℤ)

/-- `log_representation_to_number`.  The claims only exercise non-negative
codes, where Rust's truncated `i32` division/remainder and Lean's `ℤ`
operations agree (a negative code would make the Rust source panic on the
table index). -/
def log_representation_to_number (scaled_log : ℤ) : ℚ :=
  let zeros : ℤ := scaled_log / 10
  let fractional_index : ℤ := scaled_log % 10
  let multiplier : ℚ := MULTIPLIERS.getD fractional_index.toNat 0
  multiplier * (10 : ℚ) ^ zeros

/-- `table_based_approximation`: sum the encodings and divide with the
ceiling-biased `(sum + n - 1) / n`. -/
def table_based_approximation (values : List ℚ) : Except GeometricMeanError ℚ :=
  if values = [] then .error .EmptyInput
  else
    match check_values values with
    | some e => .error e
    | none =>
      let sum : ℤ := (values.map number_to_log_representation).sum
      let average : ℤ := (sum + (values.length : ℤ) - 1) / (values.length : ℤ)
      .ok (log_representation_to_number average)

end TableBased

/-! ## Evaluation harness (`src/evaluation.rs`) -/

namespace Evaluation

/-- `Results` from `src/evaluation.rs`. -/
structure Results where
  mean_absolute_relative_error : ℝ
  worst_case_error : ℝ
  worst_case_overestimate : ℝ
  overall_bias : ℝ
  total_tests : ℕ

/-- The injected randomness capability of the harness: `gen_range(1..=10)` for
test sizes and `gen_range(log_min..=log_max)` for log-uniform values, over an
abstract rng state `σ`. -/
structure EvalRand (σ : Type) where
  gen_range_size : ℕ → ℕ → σ → ℕ × σ
  gen_range_log : ℝ → ℝ → σ → ℝ × σ

/-- The mutable accumulator of the harness loop. -/
structure Accum where
  total_relative_error : ℝ
  max_error : ℝ
  max_overestimate : ℝ
  total_signed_error : ℝ
  valid_tests : ℕ

/-- Draw `n` log-uniform values (`value = exp(gen_range(ln min ..= ln max))`),
in draw order. -/
noncomputable def genValues {σ : Type} (R : EvalRand σ) (vmin vmax : ℝ) :
    ℕ → σ → List ℝ × σ
  | 0, s => ([], s)
  | n + 1, s =>
    let p := R.gen_range_log (Real.log vmin) (Real.log vmax) s
    let value := Real.exp p.1
    let rest := genValues R vmin vmax n p.2
    (value :: rest.1, rest.2)

/-- Draw the test-value lists for `num_tests` trials (`test_size` drawn
uniformly in `1..=10` before each trial's values). -/
noncomputable def genTrials {σ : Type} (R : EvalRand σ) (vmin vmax : ℝ) :
    ℕ → σ → List (List ℝ) × σ
  | 0, s => ([], s)
  | n + 1, s =>
    let ps := R.gen_range_size 1 10 s
    let pv := genValues R vmin vmax ps.1 ps.2
    let rest := genTrials R vmin vmax n pv.2
    (pv.1 :: rest.1, rest.2)

open Classical in
/-- The body of the harness loop for one trial: skip the trial if either the
exact mean or the estimate fails, otherwise accumulate the error statistics. -/
noncomputable def trialStep {ε : Type} (estimate : List ℝ → Except ε ℝ) (acc : Accum)
    (test_values : List ℝ) : Accum :=
  match Exact.geometric_mean test_values with
  | .error _ => acc
  | .ok exact_result =>
    match estimate test_values with
    | .error _ => acc
    | .ok estimate_result =>
      let relative_error := |estimate_result - exact_result| / exact_result
      let signed_relative_error := (estimate_result - exact_result) / exact_result
      { total_relative_error := acc.total_relative_error + relative_error
        max_error := if relative_error > acc.max_error then relative_error else acc.max_error
        max_overestimate :=
          if signed_relative_error > 0 ∧ signed_relative_error > acc.max_overestimate
          then signed_relative_error else acc.max_overestimate
        total_signed_error := acc.total_signed_error + signed_relative_error
        valid_tests := acc.valid_tests + 1 }

/-- `evaluate_estimate`.  The source interleaves drawing each trial with
accumulating its statistics; since the accumulator never touches the rng, the
run is embedded as drawing all trials first (`genTrials`, preserving draw
order) and then folding the loop body over them.  When no trial is valid the
source reports `f64::NAN` for each statistic; `NaN` has no counterpart in
`ℝ`, so that case is identified by `total_tests = 0` (statistics 0). -/
noncomputable def evaluate_estimate {σ ε : Type} (R : EvalRand σ)
    (estimate : List ℝ → Except ε ℝ) (rng : σ) (vmin vmax : ℝ) (num_tests : ℕ) : Results :=
  let trials := (genTrials R vmin vmax num_tests rng).1
  let acc := trials.foldl (trialStep estimate) ⟨0, 0, 0, 0, 0⟩
  if 0 < acc.valid_tests then
    { mean_absolute_relative_error := acc.total_relative_error / acc.valid_tests
      worst_case_error := acc.max_error
      worst_case_overestimate := acc.max_overestimate
      overall_bias := acc.total_signed_error / acc.valid_tests
      total_tests := acc.valid_tests }
  else
    { mean_absolute_relative_error := 0
      worst_case_error := 0
      worst_case_overestimate := 0
      overall_bias := 0
      total_tests := acc.valid_tests }

/-- A deterministic randomness oracle (always returns the lower bound),
used to instantiate harness runs in witnesses. -/
def constRand : Evaluation.EvalRand Unit :=
  ⟨fun lo _ s => (lo, s), fun lo _ s => (lo, s)⟩

end Evaluation

/-- The log-distance comparison used by the source is faithfully embedded: for
positive target and candidates, `choose_closest_in_log_space` returns the
candidate whose natural-logarithm distance to the target is smaller (the low
one on ties), exactly as the source computes with logarithms. -/
theorem choose_closest_in_log_space_log_spec (t : ℚ) (lo hi : ℕ)
    (ht : 0 < t) (hlo : 0 < lo) (hhi : 0 < hi) :
    choose_closest_in_log_space t lo hi =
      if |Real.log (t : ℝ) - Real.log (lo : ℝ)| ≤ |Real.log (t : ℝ) - Real.log (hi : ℝ)|
      then lo else hi := by
  have hne : ¬(lo = 0 ∨ hi = 0) := by omega
  have htR : (0 : ℝ) < (t : ℝ) := by exact_mod_cast ht
  have hloR : (0 : ℝ) < (lo : ℝ) := by exact_mod_cast hlo
  have hhiR : (0 : ℝ) < (hi : ℝ) := by exact_mod_cast hhi
  unfold choose_closest_in_log_space
  rw [if_neg hne]
  rcases lt_trichotomy lo hi with hlt | heq | hgt
  · have hlog : Real.log (lo : ℝ) < Real.log (hi : ℝ) :=
      Real.log_lt_log hloR (by exact_mod_cast hlt)
    have key : (|Real.log (t : ℝ) - Real.log (lo : ℝ)| ≤
        |Real.log (t : ℝ) - Real.log (hi : ℝ)|) ↔ (t * t ≤ ((lo * hi : ℕ) : ℚ)) := by
      rw [← sq_le_sq]
      constructor
      · intro h
        have h2 : Real.log (t : ℝ) + Real.log (t : ℝ) ≤
            Real.log (lo : ℝ) + Real.log (hi : ℝ) := by nlinarith
        have h3 : (t : ℝ) * (t : ℝ) ≤ (lo : ℝ) * (hi : ℝ) := by
          rw [← Real.log_le_log_iff (by positivity) (by positivity),
            Real.log_mul htR.ne' htR.ne', Real.log_mul hloR.ne' hhiR.ne']
          exact h2
        exact_mod_cast h3
      · intro h
        have h3 : (t : ℝ) * (t : ℝ) ≤ (lo : ℝ) * (hi : ℝ) := by exact_mod_cast h
        have h2 : Real.log (t : ℝ) + Real.log (t : ℝ) ≤
            Real.log (lo : ℝ) + Real.log (hi : ℝ) := by
          rw [← Real.log_mul htR.ne' htR.ne', ← Real.log_mul hloR.ne' hhiR.ne']
          exact (Real.log_le_log_iff (by positivity) (by positivity)).mpr h3
        nlinarith
    have hiff : (if lo ≤ hi then t * t ≤ ((lo * hi : ℕ) : ℚ)
        else ((lo * hi : ℕ) : ℚ) ≤ t * t) ↔
        (|Real.log (t : ℝ) - Real.log (lo : ℝ)| ≤
          |Real.log (t : ℝ) - Real.log (hi : ℝ)|) := by
      rw [if_pos (Nat.le_of_lt hlt)]
      exact key.symm
    exact if_congr hiff rfl rfl
  · subst heq
    rw [ite_self, ite_self]
  · have hlog : Real.log (hi : ℝ) < Real.log (lo : ℝ) :=
      Real.log_lt_log hhiR (by exact_mod_cast hgt)
    have key : (|Real.log (t : ℝ) - Real.log (lo : ℝ)| ≤
        |Real.log (t : ℝ) - Real.log (hi : ℝ)|) ↔ (((lo * hi : ℕ) : ℚ) ≤ t * t) := by
      rw [← sq_le_sq]
      constructor
      · intro h
        have h2 : Real.log (lo : ℝ) + Real.log (hi : ℝ) ≤
            Real.log (t : ℝ) + Real.log (t : ℝ) := by nlinarith
        have h3 : (lo : ℝ) * (hi : ℝ) ≤ (t : ℝ) * (t : ℝ) := by
          rw [← Real.log_le_log_iff (by positivity) (by positivity),
            Real.log_mul hloR.ne' hhiR.ne', Real.log_mul htR.ne' htR.ne']
          exact h2
        exact_mod_cast h3
      · intro h
        have h3 : (lo : ℝ) * (hi : ℝ) ≤ (t : ℝ) * (t : ℝ) := by exact_mod_cast h
        have h2 : Real.log (lo : ℝ) + Real.log (hi : ℝ) ≤
            Real.log (t : ℝ) + Real.log (t : ℝ) := by
          rw [← Real.log_mul hloR.ne' hhiR.ne', ← Real.log_mul htR.ne' htR.ne']
          exact (Real.log_le_log_iff (by positivity) (by positivity)).mpr h3
        nlinarith
    have hiff : (if lo ≤ hi then t * t ≤ ((lo * hi : ℕ) : ℚ)
        else ((lo * hi : ℕ) : ℚ) ≤ t * t) ↔
        (|Real.log (t : ℝ) - Real.log (lo : ℝ)| ≤
          |Real.log (t : ℝ) - Real.log (hi : ℝ)|) := by
      rw [if_neg (Nat.not_le_of_lt hgt)]
      exact key.symm
    exact if_congr hiff rfl rfl

/-! ### Basic lemmas about the rounding helpers -/

theorem satAdd_eq_of_le {a b : ℕ} (h : a + b ≤ U64MAX) : satAdd a b = a + b :=
  min_eq_left h

theorem satMul_eq_of_le {a b : ℕ} (h : a * b ≤ U64MAX) : satMul a b = a * b :=
  min_eq_left h

theorem choose_closest_self (t : ℚ) (c : ℕ) : choose_closest_in_log_space t c c = c := by
  unfold choose_closest_in_log_space
  split_ifs <;> rfl

theorem choose_closest_eq_or (t : ℚ) (lo hi : ℕ) :
    choose_closest_in_log_space t lo hi = lo ∨ choose_closest_in_log_space t lo hi = hi := by
  unfold choose_closest_in_log_space
  split_ifs <;> simp

theorem find_bracketing_candidates_zero_step (t : ℚ) (b : ℕ) :
    find_bracketing_candidates t b 0 = (b, b) := by
  simp [find_bracketing_candidates]

/-- `Int.log 10` is characterised by the usual power bounds. -/
theorem int_log_eq_of_bounds (q : ℚ) (m : ℕ)
    (h1 : ((10 ^ m : ℕ) : ℚ) ≤ q) (h2 : q < ((10 ^ (m + 1) : ℕ) : ℚ)) :
    Int.log 10 q = m := by
  have hq : 0 < q := lt_of_lt_of_le (by positivity) h1
  have hle : (m : ℤ) ≤ Int.log 10 q := by
    rw [← Int.zpow_le_iff_le_log (by norm_num) hq, zpow_natCast]
    exact_mod_cast h1
  have hlt : Int.log 10 q < (m : ℤ) + 1 := by
    rw [← Int.lt_zpow_iff_log_lt (by norm_num) hq,
      show ((m : ℤ) + 1) = ((m + 1 : ℕ) : ℤ) by push_cast; ring, zpow_natCast]
    exact_mod_cast h2
  omega

theorem stepDiv_dvd_pow10 {d M : ℕ} (h : 0 < 10 ^ M / stepDiv d) :
    stepDiv d * (10 ^ M / stepDiv d) = 10 ^ M := by
  apply Nat.mul_div_cancel'
  unfold stepDiv at *
  split_ifs at h ⊢ with h1 h2
  · have h20 : 20 ≤ 10 ^ M := by
      by_contra hc
      rw [Nat.div_eq_of_lt (by omega)] at h
      exact absurd h (by omega)
    have hM2 : 2 ≤ M := by
      by_contra hc
      interval_cases M
      all_goals omega
    obtain ⟨K, rfl⟩ : ∃ K, M = K + 2 := ⟨M - 2, by omega⟩
    exact ⟨5 * 10 ^ K, by ring⟩
  · have h10 : 10 ≤ 10 ^ M := by
      by_contra hc
      rw [Nat.div_eq_of_lt (by omega)] at h
      exact absurd h (by omega)
    have hM1 : 1 ≤ M := by
      by_contra hc
      interval_cases M
      all_goals omega
    obtain ⟨K, rfl⟩ : ∃ K, M = K + 1 := ⟨M - 1, by omega⟩
    exact ⟨10 ^ K, by ring⟩
  · have h2' : 2 ≤ 10 ^ M := by
      by_contra hc
      rw [Nat.div_eq_of_lt (by omega)] at h
      exact absurd h (by omega)
    have hM1 : 1 ≤ M := by
      by_contra hc
      interval_cases M
      all_goals omega
    obtain ⟨K, rfl⟩ : ∃ K, M = K + 1 := ⟨M - 1, by omega⟩
    exact ⟨5 * 10 ^ K, by ring⟩

/-- If `base ≤ target` and the candidate arithmetic stays below `u64::MAX`,
`find_bracketing_candidates` returns `(base + k*step, base + (k+1)*step)` for
`k = ⌊(target - base) / step⌋`. -/
theorem find_bracketing_candidates_eq (q : ℚ) (b s : ℕ) (hs : 0 < s) (hb : (b : ℚ) ≤ q)
    (hbound : b + ((⌊(q - (b : ℚ)) / (s : ℚ)⌋).toNat + 1) * s ≤ U64MAX) :
    find_bracketing_candidates q b s =
      (b + (⌊(q - (b : ℚ)) / (s : ℚ)⌋).toNat * s,
       b + ((⌊(q - (b : ℚ)) / (s : ℚ)⌋).toNat + 1) * s) := by
  have hs0 : s ≠ 0 := hs.ne'
  have hoff : (0 : ℚ) ≤ q - (b : ℚ) := by linarith
  set k : ℕ := (⌊(q - (b : ℚ)) / (s : ℚ)⌋).toNat with hk
  have hmax : b + (k + 1) * s ≤ U64MAX := hbound
  have hk1s : (k + 1) * s ≤ U64MAX := le_trans (Nat.le_add_left _ b) hmax
  have hk1 : k + 1 ≤ U64MAX := le_trans (Nat.le_mul_of_pos_right _ hs) hk1s
  have hk_le : k ≤ U64MAX := le_trans (Nat.le_succ k) hk1
  have hks : k * s ≤ U64MAX :=
    le_trans (Nat.mul_le_mul_right s (Nat.le_succ k)) hk1s
  have hbks : b + k * s ≤ U64MAX :=
    le_trans (Nat.add_le_add_left (Nat.mul_le_mul_right s (Nat.le_succ k)) b) hmax
  unfold find_bracketing_candidates
  rw [if_neg hs0]
  simp only [if_pos hoff, ← hk]
  rw [min_eq_left hk_le]
  rw [satAdd_eq_of_le (a := k) (b := 1) hk1,
    satMul_eq_of_le hks, satMul_eq_of_le hk1s,
    satAdd_eq_of_le hbks, satAdd_eq_of_le hmax]

/-- The floored quotient `k` used by `find_bracketing_candidates` brackets the
offset: `k*s ≤ target - base < (k+1)*s`. -/
theorem k_brackets (q : ℚ) (b s : ℕ) (hs : 0 < s) (hb : (b : ℚ) ≤ q) :
    (((⌊(q - (b : ℚ)) / (s : ℚ)⌋).toNat * s : ℕ) : ℚ) ≤ q - (b : ℚ) ∧
      q - (b : ℚ) < ((((⌊(q - (b : ℚ)) / (s : ℚ)⌋).toNat + 1) * s : ℕ) : ℚ) := by
  have hsQ : (0 : ℚ) < (s : ℚ) := by exact_mod_cast hs
  have hoff : (0 : ℚ) ≤ q - (b : ℚ) := by linarith
  have hfl0 : 0 ≤ ⌊(q - (b : ℚ)) / (s : ℚ)⌋ := Int.floor_nonneg.mpr (by positivity)
  set k : ℕ := (⌊(q - (b : ℚ)) / (s : ℚ)⌋).toNat with hk
  have hcast : ((k : ℤ) : ℚ) = ((⌊(q - (b : ℚ)) / (s : ℚ)⌋ : ℤ) : ℚ) := by
    rw [hk, Int.toNat_of_nonneg hfl0]
  have h1 : ((k : ℕ) : ℚ) ≤ (q - (b : ℚ)) / (s : ℚ) := by
    have := Int.floor_le ((q - (b : ℚ)) / (s : ℚ))
    push_cast at hcast ⊢
    rw [hcast]
    exact_mod_cast this
  have h2 : (q - (b : ℚ)) / (s : ℚ) < ((k : ℕ) : ℚ) + 1 := by
    have := Int.lt_floor_add_one ((q - (b : ℚ)) / (s : ℚ))
    push_cast at hcast ⊢
    rw [hcast]
    exact_mod_cast this
  constructor
  · push_cast
    calc ((k : ℚ)) * (s : ℚ) ≤ ((q - (b : ℚ)) / (s : ℚ)) * (s : ℚ) :=
        mul_le_mul_of_nonneg_right h1 hsQ.le
      _ = q - (b : ℚ) := div_mul_cancel₀ _ hsQ.ne'
  · push_cast
    calc q - (b : ℚ) = ((q - (b : ℚ)) / (s : ℚ)) * (s : ℚ) := (div_mul_cancel₀ _ hsQ.ne').symm
      _ < ((k : ℚ) + 1) * (s : ℚ) := mul_lt_mul_of_pos_right h2 hsQ

/-- `choose_closest_in_log_space` returns the low candidate when the target's
square is at most the product of the candidates (low candidate at most high). -/
theorem choose_closest_eq_low (t : ℚ) (lo hi : ℕ) (hlo : 0 < lo) (hle : lo ≤ hi)
    (h : t * t ≤ ((lo * hi : ℕ) : ℚ)) :
    choose_closest_in_log_space t lo hi = lo := by
  have hne : ¬(lo = 0 ∨ hi = 0) := by omega
  unfold choose_closest_in_log_space
  rw [if_neg hne]
  have hcond : (if lo ≤ hi then t * t ≤ ((lo * hi : ℕ) : ℚ)
      else ((lo * hi : ℕ) : ℚ) ≤ t * t) := by
    rw [if_pos hle]; exact h
  rw [if_pos hcond]

/-- A positive step forces `stepDiv d ≤ 10 ^ M` and hence `1 ≤ M`. -/
theorem one_le_M_of_step_pos {d M : ℕ} (h : 0 < 10 ^ M / stepDiv d) : 1 ≤ M := by
  have h2 : 2 ≤ stepDiv d := by unfold stepDiv; split_ifs <;> omega
  have hle : stepDiv d ≤ 10 ^ M := by
    by_contra hc
    rw [Nat.div_eq_of_lt (by omega)] at h
    exact absurd h (by omega)
  by_contra hc
  interval_cases M
  all_goals omega

/-- Unfolding `round_to_trivia_value` on the first-digit band
`[d*10^M, (d+1)*10^M)`. -/
theorem round_eq_choose (q : ℚ) (M d : ℕ) (hM : M ≤ 18) (h1 : 1 < q)
    (hd1 : 1 ≤ d) (hd9 : d ≤ 9)
    (hlo : ((d * 10 ^ M : ℕ) : ℚ) ≤ q) (hhi : q < (((d + 1) * 10 ^ M : ℕ) : ℚ)) :
    round_to_trivia_value q =
      choose_closest_in_log_space q
        (find_bracketing_candidates q (d * 10 ^ M) (10 ^ M / stepDiv d)).1
        (find_bracketing_candidates q (d * 10 ^ M) (10 ^ M / stepDiv d)).2 := by
  have hmpQ : (0 : ℚ) < ((10 ^ M : ℕ) : ℚ) := by positivity
  have hlo' : ((10 ^ M : ℕ) : ℚ) ≤ q := by
    refine le_trans ?_ hlo
    push_cast
    have hd1Q : (1 : ℚ) ≤ (d : ℚ) := by exact_mod_cast hd1
    push_cast at hmpQ
    nlinarith
  have hhi' : q < ((10 ^ (M + 1) : ℕ) : ℚ) := by
    refine lt_of_lt_of_le hhi ?_
    push_cast
    have hd9Q : ((d : ℚ) + 1) ≤ 10 := by exact_mod_cast Nat.succ_le_succ hd9
    push_cast at hmpQ
    rw [pow_succ]
    nlinarith
  have hm : Int.log 10 q = (M : ℤ) := int_log_eq_of_bounds q M hlo' hhi'
  have hfd : ⌊q / ((10 ^ M : ℕ) : ℚ)⌋ = (d : ℤ) := by
    rw [Int.floor_eq_iff]
    constructor
    · rw [le_div_iff₀ hmpQ]
      push_cast at hlo ⊢
      linarith
    · rw [div_lt_iff₀ hmpQ]
      push_cast at hhi ⊢
      linarith
  have hfdN : (⌊q / ((10 ^ M : ℕ) : ℚ)⌋).toNat = d := by
    rw [hfd]; exact Int.toNat_natCast d
  have hnot1 : ¬ (q ≤ 1) := not_le.mpr h1
  have hnot2 : ¬ ((M : ℤ) < 0) := by omega
  have hnot3 : ¬ ((18 : ℤ) < (M : ℤ)) := by omega
  simp only [round_to_trivia_value, hm, if_neg hnot1, if_neg hnot2, if_neg hnot3,
    Int.toNat_natCast, hfdN]
  by_cases hdd : d = 1
  · subst hdd
    norm_num [stepDiv]
  · by_cases hdd4 : d ≤ 4
    · rw [if_neg hdd, if_pos hdd4,
        show stepDiv d = 10 from by unfold stepDiv; rw [if_neg hdd, if_pos hdd4]]
    · rw [if_neg hdd, if_neg hdd4,
        show stepDiv d = 2 from by unfold stepDiv; rw [if_neg hdd, if_neg hdd4]]

/-- Every band base `d * 10^M` (with `1 ≤ d ≤ 9`, `M ≤ 18`) is a fixed point
of `round_to_trivia_value`. -/
theorem round_base_fixed (d M : ℕ) (hd1 : 1 ≤ d) (hd9 : d ≤ 9) (hM : M ≤ 18) :
    round_to_trivia_value ((d * 10 ^ M : ℕ) : ℚ) = d * 10 ^ M := by
  set b : ℕ := d * 10 ^ M with hb_def
  have hb1 : 1 ≤ b := by
    have : 1 ≤ 10 ^ M := Nat.one_le_pow _ _ (by norm_num)
    calc 1 = 1 * 1 := by ring
      _ ≤ d * 10 ^ M := Nat.mul_le_mul hd1 this
  by_cases hone : b = 1
  · rw [hone]
    norm_num [round_to_trivia_value]
  · have hq1 : 1 < ((b : ℕ) : ℚ) := by exact_mod_cast (by omega : 1 < b)
    have hblt : b < (d + 1) * 10 ^ M := by
      have h10 : 0 < (10 : ℕ) ^ M := Nat.pos_pow_of_pos M (by norm_num)
      calc b = d * 10 ^ M := hb_def
        _ < (d + 1) * 10 ^ M := mul_lt_mul_of_pos_right (Nat.lt_succ_self d) h10
    rw [round_eq_choose ((b : ℕ) : ℚ) M d hM hq1 hd1 hd9 (le_refl _) (by exact_mod_cast hblt)]
    set s : ℕ := 10 ^ M / stepDiv d with hs_def
    by_cases hs : s = 0
    · rw [hs, find_bracketing_candidates_zero_step, choose_closest_self]
    · have hspos : 0 < s := Nat.pos_of_ne_zero hs
      have hsle : s ≤ 10 ^ 18 := by
        have h1 : s ≤ 10 ^ M := Nat.div_le_self _ _
        have h2 : (10 : ℕ) ^ M ≤ 10 ^ 18 := Nat.pow_le_pow_right (by norm_num) hM
        omega
      have hble : b ≤ 9 * 10 ^ 18 := by
        have h2 : (10 : ℕ) ^ M ≤ 10 ^ 18 := Nat.pow_le_pow_right (by norm_num) hM
        calc b = d * 10 ^ M := hb_def
          _ ≤ 9 * 10 ^ 18 := Nat.mul_le_mul hd9 h2
      have hk0 : ⌊(((b : ℕ) : ℚ) - ((b : ℕ) : ℚ)) / ((s : ℕ) : ℚ)⌋ = 0 := by
        rw [sub_self, zero_div, Int.floor_zero]
      have hbound : b + ((⌊(((b : ℕ) : ℚ) - ((b : ℕ) : ℚ)) / ((s : ℕ) : ℚ)⌋).toNat + 1) * s
          ≤ U64MAX := by
        rw [hk0]
        show b + (0 + 1) * s ≤ U64MAX
        unfold U64MAX
        omega
      rw [find_bracketing_candidates_eq ((b : ℕ) : ℚ) b s hspos (le_refl _) hbound]
      rw [hk0]
      simp only [Int.toNat_zero, Nat.zero_mul, Nat.add_zero, Nat.zero_add, Nat.one_mul]
      apply choose_closest_eq_low _ _ _ (by omega) (by omega)
      push_cast
      nlinarith [show (0 : ℚ) ≤ (s : ℚ) by positivity, show (0 : ℚ) ≤ (b : ℚ) by positivity]

/-- Every grid value `d*10^M + j*step` of a first-digit band (including the
band endpoint, which is the next band's base) other than `10^19` is a fixed
point of `round_to_trivia_value`. -/
theorem round_grid_fixed (d M j : ℕ) (hd1 : 1 ≤ d) (hd9 : d ≤ 9) (hM : M ≤ 18)
    (hj : j ≤ stepDiv d) (hne10 : d * 10 ^ M + j * (10 ^ M / stepDiv d) ≠ 10 ^ 19) :
    round_to_trivia_value ((d * 10 ^ M + j * (10 ^ M / stepDiv d) : ℕ) : ℚ) =
      d * 10 ^ M + j * (10 ^ M / stepDiv d) := by
  by_cases hs0 : 10 ^ M / stepDiv d = 0
  · rw [hs0]
    simp only [Nat.mul_zero, Nat.add_zero]
    exact round_base_fixed d M hd1 hd9 hM
  · have hspos : 0 < 10 ^ M / stepDiv d := Nat.pos_of_ne_zero hs0
    set s : ℕ := 10 ^ M / stepDiv d with hs_def
    have hkey : stepDiv d * s = 10 ^ M := stepDiv_dvd_pow10 hspos
    rcases eq_or_lt_of_le hj with hjmax | hjlt
    · have hcval : d * 10 ^ M + j * s = (d + 1) * 10 ^ M := by
        rw [← hjmax] at hkey
        rw [hkey]
        ring
      rw [hcval] at hne10 ⊢
      by_cases hd8 : d ≤ 8
      · exact round_base_fixed (d + 1) M (by omega) (by omega) hM
      · have hd9' : d = 9 := by omega
        have hM17 : M ≤ 17 := by
          by_contra hc
          have hM18 : M = 18 := by omega
          exact hne10 (by rw [hd9', hM18]; norm_num)
        have hval : (d + 1) * 10 ^ M = 1 * 10 ^ (M + 1) := by
          rw [hd9']
          ring
        rw [hval]
        exact round_base_fixed 1 (M + 1) (by omega) (by omega) (by omega)
    · set c : ℕ := d * 10 ^ M + j * s with hc_def
      have hjs_lt : j * s < 10 ^ M := by
        calc j * s < stepDiv d * s := mul_lt_mul_of_pos_right hjlt hspos
          _ = 10 ^ M := hkey
      have hc_lo : d * 10 ^ M ≤ c := Nat.le_add_right _ _
      have hc_hi : c < (d + 1) * 10 ^ M := by
        have : c < d * 10 ^ M + 10 ^ M := by omega
        calc c < d * 10 ^ M + 10 ^ M := this
          _ = (d + 1) * 10 ^ M := by ring
      have hM1 : 1 ≤ M := one_le_M_of_step_pos hspos
      have h10M : 10 ≤ 10 ^ M := by
        calc (10 : ℕ) = 10 ^ 1 := (pow_one 10).symm
          _ ≤ 10 ^ M := Nat.pow_le_pow_right (by norm_num) hM1
      have hc1 : 1 < c := by
        have hdm : 10 ^ M ≤ d * 10 ^ M := Nat.le_mul_of_pos_left _ (by omega)
        omega
      rw [round_eq_choose ((c : ℕ) : ℚ) M d hM (by exact_mod_cast hc1) hd1 hd9
        (by exact_mod_cast hc_lo) (by exact_mod_cast hc_hi)]
      have hkfloor : ⌊(((c : ℕ) : ℚ) - ((d * 10 ^ M : ℕ) : ℚ)) / ((s : ℕ) : ℚ)⌋ = (j : ℤ) := by
        have hsne : ((s : ℕ) : ℚ) ≠ 0 := by
          exact_mod_cast hspos.ne'
        have hsub : (((c : ℕ) : ℚ) - ((d * 10 ^ M : ℕ) : ℚ)) = ((j * s : ℕ) : ℚ) := by
          rw [hc_def]
          push_cast
          ring
        rw [hsub, show ((j * s : ℕ) : ℚ) / ((s : ℕ) : ℚ) = ((j : ℕ) : ℚ) from by
          push_cast
          field_simp]
        exact Int.floor_natCast j
      have hband_le : (d + 1) * 10 ^ M ≤ U64MAX := by
        have h1 : (d + 1) * 10 ^ M ≤ 10 * 10 ^ 18 := by
          have h2 : (10 : ℕ) ^ M ≤ 10 ^ 18 := Nat.pow_le_pow_right (by norm_num) hM
          exact Nat.mul_le_mul (by omega) h2
        unfold U64MAX
        omega
      have hbound : d * 10 ^ M +
          ((⌊(((c : ℕ) : ℚ) - ((d * 10 ^ M : ℕ) : ℚ)) / ((s : ℕ) : ℚ)⌋).toNat + 1) * s
          ≤ U64MAX := by
        rw [hkfloor, Int.toNat_natCast]
        have hj1 : (j + 1) * s ≤ stepDiv d * s := Nat.mul_le_mul_right s (by omega)
        calc d * 10 ^ M + (j + 1) * s ≤ d * 10 ^ M + stepDiv d * s :=
            Nat.add_le_add_left hj1 _
          _ = (d + 1) * 10 ^ M := by rw [hkey]; ring
          _ ≤ U64MAX := hband_le
      rw [find_bracketing_candidates_eq ((c : ℕ) : ℚ) (d * 10 ^ M) s hspos
        (by exact_mod_cast hc_lo) hbound]
      rw [hkfloor, Int.toNat_natCast]
      have hlo_eq : d * 10 ^ M + j * s = c := hc_def.symm
      have hhi_eq : d * 10 ^ M + (j + 1) * s = c + s := by
        rw [hc_def]
        ring
      rw [hlo_eq, hhi_eq]
      apply choose_closest_eq_low _ _ _ (by omega) (by omega)
      push_cast
      nlinarith [show (0 : ℚ) ≤ ((s : ℕ) : ℚ) from by positivity,
        show (0 : ℚ) ≤ ((c : ℕ) : ℚ) from by positivity]

/-- `choose_closest_in_log_space` returns the high candidate when the target's
square exceeds the product of the candidates (low candidate at most high). -/
theorem choose_closest_eq_high (t : ℚ) (lo hi : ℕ) (hlo : 0 < lo) (hhi : 0 < hi)
    (hle : lo ≤ hi) (h : ¬ (t * t ≤ ((lo * hi : ℕ) : ℚ))) :
    choose_closest_in_log_space t lo hi = hi := by
  have hne : ¬(lo = 0 ∨ hi = 0) := by omega
  unfold choose_closest_in_log_space
  rw [if_neg hne]
  have hcond : ¬ (if lo ≤ hi then t * t ≤ ((lo * hi : ℕ) : ℚ)
      else ((lo * hi : ℕ) : ℚ) ≤ t * t) := by
    rw [if_pos hle]
    exact h
  rw [if_neg hcond]

/-- `u64::MAX` is a fixed point of `round_to_trivia_value`. -/
theorem round_u64max_fixed : round_to_trivia_value ((U64MAX : ℕ) : ℚ) = U64MAX := by
  have hlog : Int.log 10 ((U64MAX : ℕ) : ℚ) = ((19 : ℕ) : ℤ) := by
    exact_mod_cast int_log_eq_of_bounds ((U64MAX : ℕ) : ℚ) 19
      (by norm_num [U64MAX]) (by norm_num [U64MAX])
  simp only [round_to_trivia_value, hlog]
  rw [if_neg (by norm_num [U64MAX]), if_neg (by norm_num), if_pos (by norm_num)]

/-- Idempotence of `round_to_trivia_value`, restricted to inputs whose
rounding is not `10^19` (the sole non-fixed output value). -/
theorem round_idem_of_ne (q : ℚ) (h0 : 0 < q)
    (hne : round_to_trivia_value q ≠ 10 ^ 19) :
    round_to_trivia_value ((round_to_trivia_value q : ℕ) : ℚ) = round_to_trivia_value q := by
  by_cases hq1 : q ≤ 1
  · have h : round_to_trivia_value q = 1 := by
      unfold round_to_trivia_value
      rw [if_pos hq1]
    rw [h]
    norm_num [round_to_trivia_value]
  · push_neg at hq1
    have hm0 : 0 ≤ Int.log 10 q := by
      rw [← Int.zpow_le_iff_le_log (by norm_num) h0]
      simpa using hq1.le
    by_cases hm18 : 18 < Int.log 10 q
    · have hU : round_to_trivia_value q = U64MAX := by
        simp only [round_to_trivia_value]
        rw [if_neg (not_le.mpr hq1), if_neg (not_lt.mpr hm0), if_pos hm18]
      rw [hU]
      exact round_u64max_fixed
    · push_neg at hm18
      set M : ℕ := (Int.log 10 q).toNat with hM_def
      have hmM : Int.log 10 q = (M : ℤ) := by omega
      have hM18 : M ≤ 18 := by omega
      have hlo : ((10 ^ M : ℕ) : ℚ) ≤ q := by
        have h := Int.zpow_log_le_self (b := 10) (r := q) (by norm_num) h0
        rw [hmM, zpow_natCast] at h
        push_cast
        exact_mod_cast h
      have hhi : q < ((10 ^ (M + 1) : ℕ) : ℚ) := by
        have h := Int.lt_zpow_succ_log_self (b := 10) (r := q) (by norm_num)
        rw [hmM, show ((M : ℤ) + 1) = ((M + 1 : ℕ) : ℤ) from by push_cast; ring,
          zpow_natCast] at h
        push_cast
        exact_mod_cast h
      have hmpQ : (0 : ℚ) < ((10 ^ M : ℕ) : ℚ) := by positivity
      have hfl1 : (1 : ℤ) ≤ ⌊q / ((10 ^ M : ℕ) : ℚ)⌋ := by
        apply Int.le_floor.mpr
        rw [show (((1 : ℤ) : ℚ)) = 1 from by norm_num, one_le_div₀ hmpQ]
        exact hlo
      have hfl9 : ⌊q / ((10 ^ M : ℕ) : ℚ)⌋ ≤ 9 := by
        have h10 : q / ((10 ^ M : ℕ) : ℚ) < ((10 : ℤ) : ℚ) := by
          rw [div_lt_iff₀ hmpQ]
          push_cast at hhi ⊢
          rw [pow_succ] at hhi
          linarith
        have := Int.floor_lt.mpr h10
        omega
      set d : ℕ := (⌊q / ((10 ^ M : ℕ) : ℚ)⌋).toNat with hd_def
      have hd1 : 1 ≤ d := by omega
      have hd9 : d ≤ 9 := by omega
      have hdZ : ⌊q / ((10 ^ M : ℕ) : ℚ)⌋ = (d : ℤ) := by omega
      have hband_lo : ((d * 10 ^ M : ℕ) : ℚ) ≤ q := by
        have h1 := Int.floor_le (q / ((10 ^ M : ℕ) : ℚ))
        rw [hdZ] at h1
        have h2 : ((d : ℕ) : ℚ) ≤ q / ((10 ^ M : ℕ) : ℚ) := by exact_mod_cast h1
        have h3 := (le_div_iff₀ hmpQ).mp h2
        push_cast at h3 ⊢
        linarith
      have hband_hi : q < (((d + 1) * 10 ^ M : ℕ) : ℚ) := by
        have h1 := Int.lt_floor_add_one (q / ((10 ^ M : ℕ) : ℚ))
        rw [hdZ] at h1
        have h2 : q / ((10 ^ M : ℕ) : ℚ) < ((d : ℕ) : ℚ) + 1 := by exact_mod_cast h1
        have h3 := (div_lt_iff₀ hmpQ).mp h2
        push_cast at h3 ⊢
        linarith
      rw [round_eq_choose q M d hM18 hq1 hd1 hd9 hband_lo hband_hi] at hne ⊢
      by_cases hs0 : 10 ^ M / stepDiv d = 0
      · rw [hs0, find_bracketing_candidates_zero_step] at hne ⊢
        rw [choose_closest_self] at hne ⊢
        have hle10 : d * 10 ^ M ≤ 9 * 10 ^ 18 :=
          Nat.mul_le_mul hd9 (Nat.pow_le_pow_right (by norm_num) hM18)
        exact round_base_fixed d M hd1 hd9 hM18
      · have hspos : 0 < 10 ^ M / stepDiv d := Nat.pos_of_ne_zero hs0
        have hkey : stepDiv d * (10 ^ M / stepDiv d) = 10 ^ M := stepDiv_dvd_pow10 hspos
        have hkb := k_brackets q (d * 10 ^ M) (10 ^ M / stepDiv d) hspos hband_lo
        set k : ℕ :=
          (⌊(q - ((d * 10 ^ M : ℕ) : ℚ)) / ((10 ^ M / stepDiv d : ℕ) : ℚ)⌋).toNat with hk_def
        have hklt : k < stepDiv d := by
          by_contra hc
          push_neg at hc
          have h1 : stepDiv d * (10 ^ M / stepDiv d) ≤ k * (10 ^ M / stepDiv d) :=
            Nat.mul_le_mul_right _ hc
          rw [hkey] at h1
          have h1Q : ((10 ^ M : ℕ) : ℚ) ≤ ((k * (10 ^ M / stepDiv d) : ℕ) : ℚ) := by
            exact_mod_cast h1
          have h2 := hkb.1
          have h3 : q - ((d * 10 ^ M : ℕ) : ℚ) < ((10 ^ M : ℕ) : ℚ) := by
            push_cast at hband_hi ⊢
            linarith
          linarith
        have hband_le : (d + 1) * 10 ^ M ≤ U64MAX := by
          have h2 : (10 : ℕ) ^ M ≤ 10 ^ 18 := Nat.pow_le_pow_right (by norm_num) hM18
          have h1 : (d + 1) * 10 ^ M ≤ 10 * 10 ^ 18 := Nat.mul_le_mul (by omega) h2
          unfold U64MAX
          omega
        have hbound : d * 10 ^ M + (k + 1) * (10 ^ M / stepDiv d) ≤ U64MAX := by
          have hj1 : (k + 1) * (10 ^ M / stepDiv d) ≤ stepDiv d * (10 ^ M / stepDiv d) :=
            Nat.mul_le_mul_right _ (by omega)
          calc d * 10 ^ M + (k + 1) * (10 ^ M / stepDiv d)
              ≤ d * 10 ^ M + stepDiv d * (10 ^ M / stepDiv d) := Nat.add_le_add_left hj1 _
            _ = (d + 1) * 10 ^ M := by rw [hkey]; ring
            _ ≤ U64MAX := hband_le
        rw [find_bracketing_candidates_eq q (d * 10 ^ M) (10 ^ M / stepDiv d) hspos
          hband_lo hbound] at hne ⊢
        rcases choose_closest_eq_or q (d * 10 ^ M + k * (10 ^ M / stepDiv d))
            (d * 10 ^ M + (k + 1) * (10 ^ M / stepDiv d)) with hch | hch
        · rw [hch] at hne ⊢
          exact round_grid_fixed d M k hd1 hd9 hM18 (le_of_lt hklt) hne
        · rw [hch] at hne ⊢
          exact round_grid_fixed d M (k + 1) hd1 hd9 hM18 (by omega) hne

/-- For `1 < q < 10` every step size truncates to `0`, so the rounding
collapses to the first digit, i.e. to `⌊q⌋`. -/
theorem round_small (q : ℚ) (h1 : 1 < q) (h2 : q < 10) :
    round_to_trivia_value q = (⌊q⌋).toNat := by
  have hfl1 : (1 : ℤ) ≤ ⌊q⌋ := Int.le_floor.mpr (by exact_mod_cast h1.le)
  have hfl9 : ⌊q⌋ ≤ 9 := by
    have := Int.floor_lt.mpr (show q < ((10 : ℤ) : ℚ) by exact_mod_cast h2)
    omega
  set d : ℕ := (⌊q⌋).toNat with hd_def
  have hd1 : 1 ≤ d := by omega
  have hd9 : d ≤ 9 := by omega
  have hdZ : ⌊q⌋ = (d : ℤ) := by omega
  have hband_lo : ((d * 10 ^ 0 : ℕ) : ℚ) ≤ q := by
    rw [show (d * 10 ^ 0 : ℕ) = d from by norm_num]
    have h3 := Int.floor_le q
    rw [hdZ] at h3
    exact_mod_cast h3
  have hband_hi : q < (((d + 1) * 10 ^ 0 : ℕ) : ℚ) := by
    rw [show ((d + 1) * 10 ^ 0 : ℕ) = d + 1 from by norm_num]
    have h3 := Int.lt_floor_add_one q
    rw [hdZ] at h3
    exact_mod_cast h3
  rw [round_eq_choose q 0 d (by norm_num) h1 hd1 hd9 hband_lo hband_hi]
  have hs : (10 : ℕ) ^ 0 / stepDiv d = 0 := by
    have h2' : 2 ≤ stepDiv d := by
      unfold stepDiv
      split_ifs <;> omega
    rw [pow_zero]
    exact Nat.div_eq_of_lt (by omega)
  rw [hs, find_bracketing_candidates_zero_step, choose_closest_self]
  norm_num

/-- For `10 ≤ q < 20` the first digit is `1` and the step `10 / 20` truncates
to `0`, so the rounding returns the base `10`. -/
theorem round_teens (q : ℚ) (h1 : 10 ≤ q) (h2 : q < 20) :
    round_to_trivia_value q = 10 := by
  have hband_lo : ((1 * 10 ^ 1 : ℕ) : ℚ) ≤ q := by
    rw [show (1 * 10 ^ 1 : ℕ) = 10 from by norm_num]
    exact_mod_cast h1
  have hband_hi : q < (((1 + 1) * 10 ^ 1 : ℕ) : ℚ) := by
    rw [show ((1 + 1) * 10 ^ 1 : ℕ) = 20 from by norm_num]
    exact_mod_cast h2
  rw [round_eq_choose q 1 1 (by norm_num) (by linarith) (by norm_num) (by norm_num)
    hband_lo hband_hi]
  have hs : (10 : ℕ) ^ 1 / stepDiv 1 = 0 := by
    norm_num [stepDiv]
  rw [hs, find_bracketing_candidates_zero_step, choose_closest_self]
  norm_num

/-- Rounding `9.9e18` lands on the candidate `10^19`, which is the endpoint of
the magnitude-18 grid. -/
theorem round_99e17 : round_to_trivia_value (9900000000000000000 : ℚ) = 10 ^ 19 := by
  rw [round_eq_choose (9900000000000000000 : ℚ) 18 9 (by norm_num) (by norm_num)
    (by norm_num) (by norm_num) (by norm_num) (by norm_num)]
  rw [show (10 : ℕ) ^ 18 / stepDiv 9 = 500000000000000000 from by norm_num [stepDiv]]
  have hfl : ⌊((9900000000000000000 : ℚ) - ((9 * 10 ^ 18 : ℕ) : ℚ)) /
      ((500000000000000000 : ℕ) : ℚ)⌋ = 1 := by
    rw [Int.floor_eq_iff]
    constructor <;> norm_num
  have hbound : 9 * 10 ^ 18 +
      ((⌊((9900000000000000000 : ℚ) - ((9 * 10 ^ 18 : ℕ) : ℚ)) /
        ((500000000000000000 : ℕ) : ℚ)⌋).toNat + 1) * 500000000000000000 ≤ U64MAX := by
    rw [hfl]
    norm_num [U64MAX]
  rw [find_bracketing_candidates_eq _ _ _ (by norm_num) (by norm_num) hbound, hfl]
  rw [choose_closest_eq_high _ _ _ (by norm_num) (by norm_num) (by norm_num)
    (by push_cast; norm_num)]
  norm_num

/-- Rounding `10^19` saturates to `u64::MAX` because its magnitude exceeds 18;
in particular `10^19` is not a fixed point of the rounding. -/
theorem round_pow19 : round_to_trivia_value (((10 ^ 19 : ℕ) : ℕ) : ℚ) = U64MAX := by
  have hlog : Int.log 10 (((10 ^ 19 : ℕ) : ℕ) : ℚ) = ((19 : ℕ) : ℤ) := by
    exact_mod_cast int_log_eq_of_bounds (((10 ^ 19 : ℕ) : ℕ) : ℚ) 19
      (by norm_num) (by norm_num)
  simp only [round_to_trivia_value, hlog]
  rw [if_neg (by norm_num), if_neg (by norm_num), if_pos (by norm_num)]

/-! ### Claims C2 and C10 -/

/-- **C2** (counterexample): `round_to_trivia_value` is not idempotent at the
positive finite value `9.9e18`: its rounding is `10^19`, whose own rounding
saturates to `u64::MAX`. -/
theorem C2_counterexample :
    ¬ (round_to_trivia_value ((round_to_trivia_value (9900000000000000000 : ℚ) : ℕ) : ℚ) =
        round_to_trivia_value (9900000000000000000 : ℚ)) := by
  rw [round_99e17]
  rw [show (((10 ^ 19 : ℕ) : ℕ) : ℚ) = (((10 ^ 19 : ℕ) : ℕ) : ℚ) from rfl]
  rw [round_pow19]
  norm_num [U64MAX]

/-- **C2** (amended): for every positive `v` whose rounding is not `10^19`
(the unique non-fixed output, produced for `v` close below `10^19`),
`round_to_trivia_value` is idempotent:
`round_to_trivia_value (round_to_trivia_value v) = round_to_trivia_value v`. -/
theorem C2_round_idempotent_amended (v : ℚ) (h0 : 0 < v)
    (hne : round_to_trivia_value v ≠ 10 ^ 19) :
    round_to_trivia_value ((round_to_trivia_value v : ℕ) : ℚ) = round_to_trivia_value v :=
  round_idem_of_ne v h0 hne

/-- **C2** (witness): the amended idempotence theorem applied at `v = 2`. -/
theorem C2_witness :
    (0 : ℚ) < 2 ∧ round_to_trivia_value (2 : ℚ) ≠ 10 ^ 19 ∧
      round_to_trivia_value ((round_to_trivia_value (2 : ℚ) : ℕ) : ℚ) =
        round_to_trivia_value (2 : ℚ) := by
  have h2 : round_to_trivia_value (2 : ℚ) = 2 := by
    rw [round_small 2 (by norm_num) (by norm_num),
      show ⌊(2 : ℚ)⌋ = 2 from by norm_num]
    rfl
  refine ⟨by norm_num, by rw [h2]; norm_num, ?_⟩
  exact C2_round_idempotent_amended 2 (by norm_num) (by rw [h2]; norm_num)

/-- **C10**: for small magnitudes the integer step sizes of
`round_to_trivia_value` truncate to zero, collapsing both bracketing
candidates to the base value: for `1 < raw < 10` the function returns
`⌊raw⌋`, and for `10 ≤ raw < 20` it returns `10`. -/
theorem C10_small_magnitude_collapse :
    (∀ q : ℚ, 1 < q → q < 10 → round_to_trivia_value q = (⌊q⌋).toNat) ∧
      (∀ q : ℚ, 10 ≤ q → q < 20 → round_to_trivia_value q = 10) :=
  ⟨round_small, round_teens⟩

/-- **C10** (witness): the collapse theorem applied at `raw = 7/2` and
`raw = 15`. -/
theorem C10_witness :
    ((1 : ℚ) < 7 / 2 ∧ (7 / 2 : ℚ) < 10 ∧ round_to_trivia_value (7 / 2 : ℚ) = 3) ∧
      ((10 : ℚ) ≤ 15 ∧ (15 : ℚ) < 20 ∧ round_to_trivia_value (15 : ℚ) = 10) := by
  constructor
  · refine ⟨by norm_num, by norm_num, ?_⟩
    rw [C10_small_magnitude_collapse.1 (7 / 2) (by norm_num) (by norm_num)]
    rw [show ⌊(7 / 2 : ℚ)⌋ = 3 from by rw [Int.floor_eq_iff]; norm_num]
    rfl
  · exact ⟨by norm_num, by norm_num,
      C10_small_magnitude_collapse.2 15 (by norm_num) (by norm_num)⟩

/-! ### Claim C1: the answer evaluator -/

/-- **C1**: `evaluate_answer` returns `Correct` iff the answer matches the
floor or ceiling of the estimation result (highest precedence); otherwise
`Excellent` iff the answer lies strictly inside the open interval
`(exact - margin, exact + margin)` with `margin = |estimation - exact|`;
otherwise `Incorrect`.  In particular `evaluate_answer 100 98.5 100.5 =
Correct`, `evaluate_answer 99 98.5 100.5 = Excellent`, and
`evaluate_answer 102 98.5 100.5 = Incorrect`. -/
theorem C1_evaluate_answer :
    (∀ (u : ℕ) (em er : ℚ),
      (evaluate_answer u em er = .Correct ↔ (u = floor_as_u64 er ∨ u = ceil_as_u64 er)) ∧
      (evaluate_answer u em er = .Excellent ↔
        (¬(u = floor_as_u64 er ∨ u = ceil_as_u64 er) ∧
          em - |er - em| < (u : ℚ) ∧ (u : ℚ) < em + |er - em|)) ∧
      (evaluate_answer u em er = .Incorrect ↔
        (¬(u = floor_as_u64 er ∨ u = ceil_as_u64 er) ∧
          ¬(em - |er - em| < (u : ℚ) ∧ (u : ℚ) < em + |er - em|)))) ∧
    evaluate_answer 100 (197/2) (201/2) = .Correct ∧
    evaluate_answer 99 (197/2) (201/2) = .Excellent ∧
    evaluate_answer 102 (197/2) (201/2) = .Incorrect := by
  have main : ∀ (u : ℕ) (em er : ℚ),
      (evaluate_answer u em er = .Correct ↔ (u = floor_as_u64 er ∨ u = ceil_as_u64 er)) ∧
      (evaluate_answer u em er = .Excellent ↔
        (¬(u = floor_as_u64 er ∨ u = ceil_as_u64 er) ∧
          em - |er - em| < (u : ℚ) ∧ (u : ℚ) < em + |er - em|)) ∧
      (evaluate_answer u em er = .Incorrect ↔
        (¬(u = floor_as_u64 er ∨ u = ceil_as_u64 er) ∧
          ¬(em - |er - em| < (u : ℚ) ∧ (u : ℚ) < em + |er - em|))) := by
    intro u em er
    simp only [evaluate_answer]
    split_ifs with h1 h2
    · simp [h1]
    · simp [h1, h2]
    · simp [h1, h2]
  have hf : floor_as_u64 (201/2 : ℚ) = 100 := by
    unfold floor_as_u64
    rw [show ⌊(201/2 : ℚ)⌋ = 100 from by norm_num]
    rfl
  have hc : ceil_as_u64 (201/2 : ℚ) = 101 := by
    unfold ceil_as_u64
    rw [show ⌈(201/2 : ℚ)⌉ = 101 from by rw [Int.ceil_eq_iff]; norm_num]
    rfl
  have hmargin : |(201/2 : ℚ) - 197/2| = 2 := by norm_num
  refine ⟨main, ?_, ?_, ?_⟩
  · exact (main 100 (197/2) (201/2)).1.mpr (Or.inl hf.symm)
  · apply (main 99 (197/2) (201/2)).2.1.mpr
    refine ⟨?_, ?_, ?_⟩
    · rw [hf, hc]
      norm_num
    · rw [hmargin]
      norm_num
    · rw [hmargin]
      norm_num
  · apply (main 102 (197/2) (201/2)).2.2.mpr
    refine ⟨?_, ?_⟩
    · rw [hf, hc]
      norm_num
    · rw [hmargin]
      intro hand
      have := hand.2
      norm_num at this

/-! ### Claim C7: practice-mode configuration validation -/

/-- **C7** (counterexample): `PracticeModeConfig::new` accepts
`min_answer = 0` (with `team_size = 1`, `max_answer = 5`), so "Ok only
when both `min_answer` and `max_answer` are positive" fails: the
construction succeeds although `min_answer` is not positive. -/
theorem C7_counterexample :
    PracticeModeConfig.new 1 (F64.finite 0) 0 5 =
        .ok { team_size := 1, log_std_dev := F64.finite 0, min_answer := 0, max_answer := 5 } ∧
      ¬ (0 < (0 : ℕ)) := by
  exact ⟨rfl, by decide⟩

/-- **C7** (amended): `PracticeModeConfig.new team_size log_std_dev min max`
returns `Ok` exactly when `team_size ≥ 1` and `min < max` (so `max` is
necessarily positive, but `min = 0` is accepted); every invalid configuration
is rejected at construction, with `ZeroTeamSize` exactly when `team_size = 0`
and `InvalidAnswerRange` exactly when `team_size ≥ 1` and `min ≥ max`. -/
theorem C7_config_new_amended (team_size : ℕ) (log_std_dev : F64)
    (min_answer max_answer : ℕ) :
    (PracticeModeConfig.new team_size log_std_dev min_answer max_answer =
        .ok { team_size := team_size, log_std_dev := log_std_dev,
              min_answer := min_answer, max_answer := max_answer } ↔
      1 ≤ team_size ∧ min_answer < max_answer) ∧
    (PracticeModeConfig.new team_size log_std_dev min_answer max_answer =
        .error .ZeroTeamSize ↔ team_size = 0) ∧
    (PracticeModeConfig.new team_size log_std_dev min_answer max_answer =
        .error .InvalidAnswerRange ↔ 1 ≤ team_size ∧ max_answer ≤ min_answer) ∧
    (∀ cfg, PracticeModeConfig.new team_size log_std_dev min_answer max_answer = .ok cfg →
      1 ≤ cfg.team_size ∧ cfg.min_answer < cfg.max_answer ∧ 1 ≤ cfg.max_answer) := by
  unfold PracticeModeConfig.new
  split_ifs with h1 h2
  · refine ⟨by simp [h1], by simp [h1], by simp [h1], ?_⟩
    intro cfg hcfg
    simp at hcfg
  · refine ⟨by simp; omega, by simp; omega, by simp; omega, ?_⟩
    intro cfg hcfg
    simp at hcfg
  · refine ⟨by simp; omega, by simp; omega, by simp; omega, ?_⟩
    intro cfg hcfg
    rw [Except.ok.injEq] at hcfg
    subst hcfg
    refine ⟨by show 1 ≤ team_size; omega, by show min_answer < max_answer; omega,
      by show 1 ≤ max_answer; omega⟩

/-- **C7** (witness): the amended characterisation applied at concrete
configurations exercising the `Ok`, `ZeroTeamSize` and `InvalidAnswerRange`
outcomes. -/
theorem C7_witness :
    PracticeModeConfig.new 1 (F64.finite 0) 2 5 =
        .ok { team_size := 1, log_std_dev := F64.finite 0,
              min_answer := 2, max_answer := 5 } ∧
      PracticeModeConfig.new 0 (F64.finite 0) 2 5 = .error .ZeroTeamSize ∧
      PracticeModeConfig.new 1 (F64.finite 0) 5 5 = .error .InvalidAnswerRange := by
  refine ⟨?_, ?_, ?_⟩
  · exact (C7_config_new_amended 1 (F64.finite 0) 2 5).1.mpr (by decide)
  · exact (C7_config_new_amended 0 (F64.finite 0) 2 5).2.1.mpr (by decide)
  · exact (C7_config_new_amended 1 (F64.finite 0) 5 5).2.2.1.mpr (by decide)

/-! ### Claim C8: distribution constructor validation -/

/-- **C8**: `TriviaGuessDistribution::new` rejects `correct_answer = 0` with
`InvalidCorrectAnswer` (checked first); then a negative, NaN or infinite
`log_std_dev` with `InvalidLogStdDev`; then `log_std_dev > 50` with
`LogStdDevTooLarge`; and succeeds otherwise.  In particular `new 0 1.0` fails
with `InvalidCorrectAnswer`, `new 100 51.0` fails with `LogStdDevTooLarge`,
and `new 100 50.0` succeeds (instantiated by the witness). -/
theorem C8_distribution_new (ops : FloatOps) (ca : ℕ) (lsd : F64) :
    (TriviaGuessDistribution.new ops ca lsd = .error .InvalidCorrectAnswer ↔ ca = 0) ∧
    (TriviaGuessDistribution.new ops ca lsd = .error .InvalidLogStdDev ↔
      ca ≠ 0 ∧ (lsd = .nan ∨ lsd = .posInf ∨ lsd = .negInf ∨
        ∃ q, lsd = .finite q ∧ q < 0)) ∧
    (TriviaGuessDistribution.new ops ca lsd = .error .LogStdDevTooLarge ↔
      ca ≠ 0 ∧ ∃ q, lsd = .finite q ∧ 0 ≤ q ∧ 50 < q) ∧
    ((∃ d, TriviaGuessDistribution.new ops ca lsd = .ok d) ↔
      ca ≠ 0 ∧ ∃ q, lsd = .finite q ∧ 0 ≤ q ∧ q ≤ 50) := by
  unfold TriviaGuessDistribution.new
  cases lsd with
  | finite q =>
    by_cases hca : ca = 0
    · simp [hca, F64.isFinite, F64.lt]
    · by_cases hneg : q < 0
      · simp [hca, hneg, F64.isFinite, F64.lt, not_le.mpr hneg,
          asymm hneg]
      · by_cases hlarge : 50 < q
        · simp [hca, hneg, hlarge, F64.isFinite, F64.lt, not_lt.mp hneg,
          not_lt.mp (lt_asymm hlarge)]
        · simp [hca, hneg, hlarge, F64.isFinite, F64.lt, not_lt.mp hneg,
            not_lt.mp hlarge]
  | nan =>
    by_cases hca : ca = 0
    · simp [hca, F64.isFinite, F64.lt]
    · simp [hca, F64.isFinite, F64.lt]
  | posInf =>
    by_cases hca : ca = 0
    · simp [hca, F64.isFinite, F64.lt]
    · simp [hca, F64.isFinite, F64.lt]
  | negInf =>
    by_cases hca : ca = 0
    · simp [hca, F64.isFinite, F64.lt]
    · simp [hca, F64.isFinite, F64.lt]

/-- **C8** (witness): the constructor characterisation instantiated at the
spec's three examples. -/
theorem C8_witness :
    TriviaGuessDistribution.new trivialFloatOps 0 (F64.finite 1) =
        .error .InvalidCorrectAnswer ∧
      TriviaGuessDistribution.new trivialFloatOps 100 (F64.finite 51) =
        .error .LogStdDevTooLarge ∧
      ∃ d, TriviaGuessDistribution.new trivialFloatOps 100 (F64.finite 50) = .ok d := by
  refine ⟨?_, ?_, ?_⟩
  · exact (C8_distribution_new trivialFloatOps 0 (F64.finite 1)).1.mpr rfl
  · exact (C8_distribution_new trivialFloatOps 100 (F64.finite 51)).2.2.1.mpr
      ⟨by norm_num, 51, rfl, by norm_num, by norm_num⟩
  · exact (C8_distribution_new trivialFloatOps 100 (F64.finite 50)).2.2.2.mpr
      ⟨by norm_num, 50, rfl, by norm_num, by norm_num⟩

/-! ### Claim C3: deterministic sampling at zero deviation -/

/-- **C3**: for every validly constructed distribution with `log_std_dev = 0`,
`sample` returns `round_to_trivia_value correct_answer` and leaves the rng
untouched, so repeated calls with any rng states agree. -/
theorem C3_sample_deterministic (ops : FloatOps) (ca : ℕ) (lsd : F64)
    (d : TriviaGuessDistribution)
    (hnew : TriviaGuessDistribution.new ops ca lsd = .ok d)
    (hzero : d.log_std_dev = 0) :
    ∀ rng rng' : RngState,
      TriviaGuessDistribution.sample ops d rng =
        (round_to_trivia_value ((ca : ℕ) : ℚ), rng) ∧
      (TriviaGuessDistribution.sample ops d rng).1 =
        (TriviaGuessDistribution.sample ops d rng').1 := by
  have hca : d.correct_answer = ca := by
    unfold TriviaGuessDistribution.new at hnew
    split_ifs at hnew
    all_goals
      first
        | exact Except.noConfusion hnew
        | (rw [Except.ok.injEq] at hnew
           rw [← hnew])
  intro rng rng'
  constructor
  · unfold TriviaGuessDistribution.sample
    rw [if_pos hzero, hca]
  · unfold TriviaGuessDistribution.sample
    rw [if_pos hzero, if_pos hzero]

/-- **C3** (witness): the determinism theorem applied to the distribution
built from `correct_answer = 100`, `log_std_dev = 0`, with two different rng
states; the sampled value is `100` and the rng is returned unchanged. -/
theorem C3_witness :
    TriviaGuessDistribution.sample trivialFloatOps
        { correct_answer := 100, ln_correct_answer := 100, log_std_dev := 0 }
        { draws := [1/2, 1/3] } =
      (100, { draws := [1/2, 1/3] }) ∧
    (TriviaGuessDistribution.sample trivialFloatOps
        { correct_answer := 100, ln_correct_answer := 100, log_std_dev := 0 }
        { draws := [1/2, 1/3] }).1 =
      (TriviaGuessDistribution.sample trivialFloatOps
        { correct_answer := 100, ln_correct_answer := 100, log_std_dev := 0 }
        { draws := [] }).1 := by
  have hnew : TriviaGuessDistribution.new trivialFloatOps 100 (F64.finite 0) =
      .ok { correct_answer := 100, ln_correct_answer := 100, log_std_dev := 0 } := rfl
  have h := C3_sample_deterministic trivialFloatOps 100 (F64.finite 0)
    { correct_answer := 100, ln_correct_answer := 100, log_std_dev := 0 } hnew rfl
  have hround : round_to_trivia_value ((100 : ℕ) : ℚ) = 100 := by
    have h2 := round_base_fixed 1 2 (by norm_num) (by norm_num) (by norm_num)
    norm_num at h2
    rw [show ((100 : ℕ) : ℚ) = (100 : ℚ) from by norm_num]
    exact h2
  have h1 := (h { draws := [1/2, 1/3] } { draws := [] }).1
  rw [hround] at h1
  exact ⟨h1, (h { draws := [1/2, 1/3] } { draws := [] }).2⟩

/-! ### Claim C5: the exact estimator -/

/-- **C5**: on every non-empty list of positive values, `geometric_mean`
computes `exp(mean(ln v))`; consequently `geometric_mean [1, 4] = 2` (within
`1e-10`; the model is exact) and `geometric_mean [a, b] = sqrt (a*b)` for all
positive `a`, `b`. -/
theorem C5_geometric_mean :
    (∀ values : List ℝ, values ≠ [] → (∀ v ∈ values, 0 < v) →
      Exact.geometric_mean values =
        .ok (Real.exp ((values.map Real.log).sum / values.length))) ∧
    (∃ r : ℝ, Exact.geometric_mean [1, 4] = .ok r ∧ |r - 2| ≤ 1e-10) ∧
    (∀ a b : ℝ, 0 < a → 0 < b →
      Exact.geometric_mean [a, b] = .ok (Real.sqrt (a * b))) := by
  have hgen : ∀ values : List ℝ, values ≠ [] → (∀ v ∈ values, 0 < v) →
      Exact.geometric_mean values =
        .ok (Real.exp ((values.map Real.log).sum / values.length)) := by
    intro values hne hpos
    unfold Exact.geometric_mean
    have hcond : ¬ ∃ v ∈ values, v ≤ 0 := by
      rintro ⟨v, hv, hle⟩
      exact absurd hle (not_le.mpr (hpos v hv))
    rw [if_neg hne, if_neg hcond]
  have hab : ∀ a b : ℝ, 0 < a → 0 < b →
      Exact.geometric_mean [a, b] = .ok (Real.sqrt (a * b)) := by
    intro a b ha hb
    have hposab : ∀ v ∈ [a, b], 0 < v := by
      intro v hv
      rcases List.mem_cons.mp hv with rfl | hv2
      · exact ha
      · rcases List.mem_cons.mp hv2 with rfl | hv3
        · exact hb
        · exact absurd hv3 (List.not_mem_nil v)
    rw [hgen [a, b] (by simp) hposab]
    congr 1
    rw [Real.sqrt_eq_rpow, Real.rpow_def_of_pos (mul_pos ha hb),
      Real.log_mul ha.ne' hb.ne']
    congr 1
    simp
    ring
  refine ⟨hgen, ⟨2, ?_, by norm_num⟩, hab⟩
  rw [hab 1 4 one_pos (by norm_num),
    show (1 : ℝ) * 4 = 4 from by norm_num,
    show (4 : ℝ) = 2 ^ 2 from by norm_num,
    Real.sqrt_sq (by norm_num : (0 : ℝ) ≤ 2)]

/-- **C5** (witness): the general mean formula and the square-root identity
applied at the concrete list `[1, 4]`. -/
theorem C5_witness :
    Exact.geometric_mean [(1 : ℝ), 4] =
        .ok (Real.exp ((([(1 : ℝ), 4]).map Real.log).sum / ([(1 : ℝ), 4]).length)) ∧
      Exact.geometric_mean [(1 : ℝ), 4] = .ok (Real.sqrt (1 * 4)) := by
  constructor
  · exact C5_geometric_mean.1 [1, 4] (by simp) (by
      intro v hv
      rcases List.mem_cons.mp hv with rfl | hv2
      · norm_num
      · rcases List.mem_cons.mp hv2 with rfl | hv3
        · norm_num
        · exact absurd hv3 (List.not_mem_nil v))
  · exact C5_geometric_mean.2.2 1 4 one_pos (by norm_num)

/-! ### Claim C6: the log-linear estimator -/

/-- The validation loop accepts a list whose members are all at least `1`. -/
theorem LogLinear.log_linear_values_ok (l : List ℚ) (h : ∀ v ∈ l, 1 ≤ v) :
    LogLinear.check_values l = none := by
  induction l with
  | nil => rfl
  | cons v rest ih =>
    have hv := h v (List.mem_cons_self v rest)
    unfold LogLinear.check_values
    rw [if_neg (by linarith), if_neg (by linarith)]
    exact ih fun w hw => h w (List.mem_cons_of_mem v hw)

/-- **C6**: the log-linear estimator encodes `v` as `d + v / 10^d` with
`d = floor(log10 v) + 1`, averages the encodings arithmetically, and decodes
once, clamping a fractional part below `0.1` up to `0.1`; in particular
`log_linear_approximation [300, 10000, 900, 70] = 750` (within `1e-8`; the
rational model is exact). -/
theorem C6_log_linear :
    (∀ v : ℚ, LogLinear.convert_to_log_linear v =
      ((Int.log 10 v + 1 : ℤ) : ℚ) + v / (10 : ℚ) ^ (Int.log 10 v + 1)) ∧
    (∀ x : ℚ, LogLinear.convert_from_log_linear x =
      (if x - ((⌊x⌋ : ℤ) : ℚ) < 1/10 then (1/10 : ℚ) else x - ((⌊x⌋ : ℤ) : ℚ)) *
        (10 : ℚ) ^ (⌊x⌋ : ℤ)) ∧
    (∀ values : List ℚ, values ≠ [] → (∀ v ∈ values, 1 ≤ v) →
      LogLinear.log_linear_approximation values =
        .ok (LogLinear.convert_from_log_linear
          ((values.map LogLinear.convert_to_log_linear).sum / values.length))) ∧
    (∃ r : ℚ, LogLinear.log_linear_approximation [300, 10000, 900, 70] = .ok r ∧
      |r - 750| ≤ 1/100000000) := by
  have hmean : ∀ values : List ℚ, values ≠ [] → (∀ v ∈ values, 1 ≤ v) →
      LogLinear.log_linear_approximation values =
        .ok (LogLinear.convert_from_log_linear
          ((values.map LogLinear.convert_to_log_linear).sum / values.length)) := by
    intro values hne hge
    unfold LogLinear.log_linear_approximation
    rw [if_neg hne, LogLinear.log_linear_values_ok values hge]
  refine ⟨fun v => rfl, fun x => rfl, hmean, ⟨750, ?_, by norm_num⟩⟩
  have e300 : LogLinear.convert_to_log_linear 300 = 33/10 := by
    unfold LogLinear.convert_to_log_linear
    rw [show Int.log 10 (300 : ℚ) = 2 from by
      exact_mod_cast int_log_eq_of_bounds 300 2 (by norm_num) (by norm_num)]
    norm_num
  have e10000 : LogLinear.convert_to_log_linear 10000 = 51/10 := by
    unfold LogLinear.convert_to_log_linear
    rw [show Int.log 10 (10000 : ℚ) = 4 from by
      exact_mod_cast int_log_eq_of_bounds 10000 4 (by norm_num) (by norm_num)]
    norm_num
  have e900 : LogLinear.convert_to_log_linear 900 = 39/10 := by
    unfold LogLinear.convert_to_log_linear
    rw [show Int.log 10 (900 : ℚ) = 2 from by
      exact_mod_cast int_log_eq_of_bounds 900 2 (by norm_num) (by norm_num)]
    norm_num
  have e70 : LogLinear.convert_to_log_linear 70 = 27/10 := by
    unfold LogLinear.convert_to_log_linear
    rw [show Int.log 10 (70 : ℚ) = 1 from by
      exact_mod_cast int_log_eq_of_bounds 70 1 (by norm_num) (by norm_num)]
    norm_num
  rw [hmean [300, 10000, 900, 70] (by simp) ?_]
  · simp only [List.map_cons, List.map_nil, List.sum_cons, List.sum_nil,
      e300, e10000, e900, e70, List.length_cons, List.length_nil]
    rw [show ((33/10 : ℚ) + (51/10 + (39/10 + (27/10 + 0)))) / ((0 + 1 + 1 + 1 + 1 : ℕ) : ℚ)
        = 15/4 from by norm_num]
    unfold LogLinear.convert_from_log_linear
    rw [show ⌊(15/4 : ℚ)⌋ = 3 from by norm_num]
    norm_num
  · intro v hv
    simp only [List.mem_cons, List.not_mem_nil, or_false] at hv
    rcases hv with rfl | rfl | rfl | rfl
    all_goals norm_num

/-- **C6** (witness): the averaging characterisation applied at the spec's
concrete list. -/
theorem C6_witness :
    LogLinear.log_linear_approximation [300, 10000, 900, 70] =
      .ok (LogLinear.convert_from_log_linear
        ((([300, 10000, 900, 70] : List ℚ).map LogLinear.convert_to_log_linear).sum /
          (([300, 10000, 900, 70] : List ℚ)).length)) := by
  refine C6_log_linear.2.2.1 [300, 10000, 900, 70] (by simp) ?_
  intro v hv
  simp only [List.mem_cons, List.not_mem_nil, or_false] at hv
  rcases hv with rfl | rfl | rfl | rfl
  all_goals norm_num

/-! ### Claim C4: the table-based estimator -/

/-- The validation loop accepts a list whose members are all at least `1`. -/
theorem TableBased.table_values_ok (l : List ℚ) (h : ∀ v ∈ l, 1 ≤ v) :
    TableBased.check_values l = none := by
  induction l with
  | nil => rfl
  | cons v rest ih =>
    have hv := h v (List.mem_cons_self v rest)
    unfold TableBased.check_values
    rw [if_neg (by linarith), if_neg (by linarith)]
    exact ih fun w hw => h w (List.mem_cons_of_mem v hw)

/-- The descending scan written out as a decision chain over the ten
multiplier thresholds. -/
theorem TableBased.find_forward_table_entry_eq (x : ℚ) :
    TableBased.find_forward_table_entry x =
      (if 8 ≤ x then 9 else if 6 ≤ x then 8 else if 5 ≤ x then 7 else if 4 ≤ x then 6
       else if 3 ≤ x then 5 else if 5/2 ≤ x then 4 else if 2 ≤ x then 3
       else if 8/5 ≤ x then 2 else if 5/4 ≤ x then 1 else if 1 ≤ x then 0 else 0) := by
  show TableBased.find_forward_scan x [9, 8, 7, 6, 5, 4, 3, 2, 1, 0] = _
  simp only [TableBased.find_forward_scan,
    show TableBased.MULTIPLIERS.getD 9 0 = 8 from rfl,
    show TableBased.MULTIPLIERS.getD 8 0 = 6 from rfl,
    show TableBased.MULTIPLIERS.getD 7 0 = 5 from rfl,
    show TableBased.MULTIPLIERS.getD 6 0 = 4 from rfl,
    show TableBased.MULTIPLIERS.getD 5 0 = 3 from rfl,
    show TableBased.MULTIPLIERS.getD 4 0 = 5/2 from rfl,
    show TableBased.MULTIPLIERS.getD 3 0 = 2 from rfl,
    show TableBased.MULTIPLIERS.getD 2 0 = 8/5 from rfl,
    show TableBased.MULTIPLIERS.getD 1 0 = 5/4 from rfl,
    show TableBased.MULTIPLIERS.getD 0 0 = 1 from rfl]

set_option maxHeartbeats 1000000 in
/-- `find_forward_table_entry` returns, for `x ≥ 1`, an index whose
multiplier is at most `x` and which dominates every index whose multiplier is
at most `x` (i.e. the largest such index). -/
theorem TableBased.find_forward_maximal (x : ℚ) (hx : 1 ≤ x) :
    TableBased.MULTIPLIERS.getD (TableBased.find_forward_table_entry x) 0 ≤ x ∧
      ∀ j < 10, TableBased.MULTIPLIERS.getD j 0 ≤ x →
        j ≤ TableBased.find_forward_table_entry x := by
  have g9 : TableBased.MULTIPLIERS.getD 9 0 = 8 := rfl
  have g8 : TableBased.MULTIPLIERS.getD 8 0 = 6 := rfl
  have g7 : TableBased.MULTIPLIERS.getD 7 0 = 5 := rfl
  have g6 : TableBased.MULTIPLIERS.getD 6 0 = 4 := rfl
  have g5 : TableBased.MULTIPLIERS.getD 5 0 = 3 := rfl
  have g4 : TableBased.MULTIPLIERS.getD 4 0 = 5/2 := rfl
  have g3 : TableBased.MULTIPLIERS.getD 3 0 = 2 := rfl
  have g2 : TableBased.MULTIPLIERS.getD 2 0 = 8/5 := rfl
  have g1 : TableBased.MULTIPLIERS.getD 1 0 = 5/4 := rfl
  have g0 : TableBased.MULTIPLIERS.getD 0 0 = 1 := rfl
  rw [TableBased.find_forward_table_entry_eq x]
  split_ifs with h1 h2 h3 h4 h5 h6 h7 h8 h9
  · exact ⟨by rw [g9]; linarith, fun j hj hmj => by omega⟩
  · refine ⟨by rw [g8]; linarith, ?_⟩
    intro j hj hmj
    interval_cases j <;>
      first
        | omega
        | (rw [g9] at hmj; linarith)
  · refine ⟨by rw [g7]; linarith, ?_⟩
    intro j hj hmj
    interval_cases j <;>
      first
        | omega
        | (rw [g9] at hmj; linarith)
        | (rw [g8] at hmj; linarith)
  · refine ⟨by rw [g6]; linarith, ?_⟩
    intro j hj hmj
    interval_cases j <;>
      first
        | omega
        | (rw [g9] at hmj; linarith)
        | (rw [g8] at hmj; linarith)
        | (rw [g7] at hmj; linarith)
  · refine ⟨by rw [g5]; linarith, ?_⟩
    intro j hj hmj
    interval_cases j <;>
      first
        | omega
        | (rw [g9] at hmj; linarith)
        | (rw [g8] at hmj; linarith)
        | (rw [g7] at hmj; linarith)
        | (rw [g6] at hmj; linarith)
  · refine ⟨by rw [g4]; linarith, ?_⟩
    intro j hj hmj
    interval_cases j <;>
      first
        | omega
        | (rw [g9] at hmj; linarith)
        | (rw [g8] at hmj; linarith)
        | (rw [g7] at hmj; linarith)
        | (rw [g6] at hmj; linarith)
        | (rw [g5] at hmj; linarith)
  · refine ⟨by rw [g3]; linarith, ?_⟩
    intro j hj hmj
    interval_cases j <;>
      first
        | omega
        | (rw [g9] at hmj; linarith)
        | (rw [g8] at hmj; linarith)
        | (rw [g7] at hmj; linarith)
        | (rw [g6] at hmj; linarith)
        | (rw [g5] at hmj; linarith)
        | (rw [g4] at hmj; linarith)
  · refine ⟨by rw [g2]; linarith, ?_⟩
    intro j hj hmj
    interval_cases j <;>
      first
        | omega
        | (rw [g9] at hmj; linarith)
        | (rw [g8] at hmj; linarith)
        | (rw [g7] at hmj; linarith)
        | (rw [g6] at hmj; linarith)
        | (rw [g5] at hmj; linarith)
        | (rw [g4] at hmj; linarith)
        | (rw [g3] at hmj; linarith)
  · refine ⟨by rw [g1]; linarith, ?_⟩
    intro j hj hmj
    interval_cases j <;>
      first
        | omega
        | (rw [g9] at hmj; linarith)
        | (rw [g8] at hmj; linarith)
        | (rw [g7] at hmj; linarith)
        | (rw [g6] at hmj; linarith)
        | (rw [g5] at hmj; linarith)
        | (rw [g4] at hmj; linarith)
        | (rw [g3] at hmj; linarith)
        | (rw [g2] at hmj; linarith)
  · refine ⟨by rw [g0]; linarith, ?_⟩
    intro j hj hmj
    interval_cases j <;>
      first
        | omega
        | (rw [g9] at hmj; linarith)
        | (rw [g8] at hmj; linarith)
        | (rw [g7] at hmj; linarith)
        | (rw [g6] at hmj; linarith)
        | (rw [g5] at hmj; linarith)
        | (rw [g4] at hmj; linarith)
        | (rw [g3] at hmj; linarith)
        | (rw [g2] at hmj; linarith)
        | (rw [g1] at hmj; linarith)

/-- Below the first multiplier the scan defaults to index `0`. -/
theorem TableBased.find_forward_default (x : ℚ) (hx : x < 1) :
    TableBased.find_forward_table_entry x = 0 := by
  rw [TableBased.find_forward_table_entry_eq x]
  rw [if_neg (by linarith : ¬ (8 : ℚ) ≤ x), if_neg (by linarith : ¬ (6 : ℚ) ≤ x),
    if_neg (by linarith : ¬ (5 : ℚ) ≤ x), if_neg (by linarith : ¬ (4 : ℚ) ≤ x),
    if_neg (by linarith : ¬ (3 : ℚ) ≤ x), if_neg (by linarith : ¬ (5/2 : ℚ) ≤ x),
    if_neg (by linarith : ¬ (2 : ℚ) ≤ x), if_neg (by linarith : ¬ (8/5 : ℚ) ≤ x),
    if_neg (by linarith : ¬ (5/4 : ℚ) ≤ x), ite_self]

/-- Encoding of the three spec values. -/
theorem TableBased.encode_spec_values :
    TableBased.number_to_log_representation 3600 = 35 ∧
      TableBased.number_to_log_representation 920 = 29 ∧
      TableBased.number_to_log_representation 700 = 28 := by
  refine ⟨?_, ?_, ?_⟩
  · simp only [TableBased.number_to_log_representation]
    rw [show Int.log 10 (3600 : ℚ) = 3 from by
      exact_mod_cast int_log_eq_of_bounds 3600 3 (by norm_num) (by norm_num)]
    rw [show (3600 : ℚ) / (10 : ℚ) ^ (3 : ℤ) = 18/5 from by norm_num]
    rw [TableBased.find_forward_table_entry_eq]
    norm_num
  · simp only [TableBased.number_to_log_representation]
    rw [show Int.log 10 (920 : ℚ) = 2 from by
      exact_mod_cast int_log_eq_of_bounds 920 2 (by norm_num) (by norm_num)]
    rw [show (920 : ℚ) / (10 : ℚ) ^ (2 : ℤ) = 46/5 from by norm_num]
    rw [TableBased.find_forward_table_entry_eq]
    norm_num
  · simp only [TableBased.number_to_log_representation]
    rw [show Int.log 10 (700 : ℚ) = 2 from by
      exact_mod_cast int_log_eq_of_bounds 700 2 (by norm_num) (by norm_num)]
    rw [show (700 : ℚ) / (10 : ℚ) ^ (2 : ℤ) = 7 from by norm_num]
    rw [TableBased.find_forward_table_entry_eq]
    norm_num

/-- **C4**: the table-based estimator encodes `v ≥ 1` as
`floor(log10 v) * 10 + i` with `i` the largest index whose multiplier is at
most the leading digits (default `0`), averages the integer encodings with
the ceiling-biased division `(sum + n - 1) / n`, and decodes as
`table[code % 10] * 10^(code / 10)`; on `[3600, 920, 700]` the result is
exactly `1250`, within `±50` of `1250`. -/
theorem C4_table_based :
    (∀ v : ℚ, TableBased.number_to_log_representation v =
      Int.log 10 v * 10 +
        (TableBased.find_forward_table_entry (v / (10 : ℚ) ^ Int.log 10 v) : ℤ)) ∧
    (∀ x : ℚ, 1 ≤ x →
      TableBased.MULTIPLIERS.getD (TableBased.find_forward_table_entry x) 0 ≤ x ∧
      ∀ j < 10, TableBased.MULTIPLIERS.getD j 0 ≤ x →
        j ≤ TableBased.find_forward_table_entry x) ∧
    (∀ x : ℚ, x < 1 → TableBased.find_forward_table_entry x = 0) ∧
    (∀ values : List ℚ, values ≠ [] → (∀ v ∈ values, 1 ≤ v) →
      TableBased.table_based_approximation values =
        .ok (TableBased.log_representation_to_number
          (((values.map TableBased.number_to_log_representation).sum +
            (values.length : ℤ) - 1) / (values.length : ℤ)))) ∧
    (∀ code : ℤ, TableBased.log_representation_to_number code =
      TableBased.MULTIPLIERS.getD (code % 10).toNat 0 * (10 : ℚ) ^ (code / 10)) ∧
    (∃ r : ℚ, TableBased.table_based_approximation [3600, 920, 700] = .ok r ∧
      |r - 1250| ≤ 50) := by
  have hmean : ∀ values : List ℚ, values ≠ [] → (∀ v ∈ values, 1 ≤ v) →
      TableBased.table_based_approximation values =
        .ok (TableBased.log_representation_to_number
          (((values.map TableBased.number_to_log_representation).sum +
            (values.length : ℤ) - 1) / (values.length : ℤ))) := by
    intro values hne hge
    unfold TableBased.table_based_approximation
    rw [if_neg hne, TableBased.table_values_ok values hge]
  refine ⟨fun v => rfl, TableBased.find_forward_maximal,
    TableBased.find_forward_default, hmean, fun code => rfl, ⟨1250, ?_, by norm_num⟩⟩
  rw [hmean [3600, 920, 700] (by simp) ?_]
  · simp only [List.map_cons, List.map_nil, List.sum_cons, List.sum_nil,
      TableBased.encode_spec_values.1, TableBased.encode_spec_values.2.1,
      TableBased.encode_spec_values.2.2, List.length_cons, List.length_nil]
    rw [show ((35 : ℤ) + (29 + (28 + 0)) + ((0 + 1 + 1 + 1 : ℕ) : ℤ) - 1) /
        ((0 + 1 + 1 + 1 : ℕ) : ℤ) = 31 from by norm_num]
    simp only [TableBased.log_representation_to_number]
    rw [show (31 : ℤ) / 10 = 3 from by norm_num,
      show (31 : ℤ) % 10 = 1 from by norm_num,
      show ((1 : ℤ)).toNat = 1 from rfl,
      show TableBased.MULTIPLIERS.getD 1 0 = 5/4 from rfl]
    norm_num
  · intro v hv
    simp only [List.mem_cons, List.not_mem_nil, or_false] at hv
    rcases hv with rfl | rfl | rfl
    all_goals norm_num

/-- **C4** (witness): the averaging characterisation applied at the spec's
concrete list, and the scan characterisations at `18/5` and `1/2`. -/
theorem C4_witness :
    TableBased.table_based_approximation [3600, 920, 700] =
      .ok (TableBased.log_representation_to_number
        (((([3600, 920, 700] : List ℚ).map TableBased.number_to_log_representation).sum +
          ((([3600, 920, 700] : List ℚ)).length : ℤ) - 1) /
          ((([3600, 920, 700] : List ℚ)).length : ℤ))) ∧
    TableBased.MULTIPLIERS.getD (TableBased.find_forward_table_entry (18/5)) 0 ≤ (18/5 : ℚ) ∧
    TableBased.find_forward_table_entry (1/2) = 0 := by
  refine ⟨?_, ?_, ?_⟩
  · refine C4_table_based.2.2.2.1 [3600, 920, 700] (by simp) ?_
    intro v hv
    simp only [List.mem_cons, List.not_mem_nil, or_false] at hv
    rcases hv with rfl | rfl | rfl
    all_goals norm_num
  · exact (C4_table_based.2.1 (18/5) (by norm_num)).1
  · exact C4_table_based.2.2.1 (1/2) (by norm_num)

/-! ### Claim C9: the evaluation harness statistics -/

/-- A successful exact geometric mean is positive (it is an exponential). -/
theorem Exact.geometric_mean_pos (l : List ℝ) (x : ℝ)
    (h : Exact.geometric_mean l = .ok x) : 0 < x := by
  unfold Exact.geometric_mean at h
  split_ifs at h
  all_goals
    first
      | exact Except.noConfusion h
      | (rw [Except.ok.injEq] at h
         rw [← h]
         exact Real.exp_pos _)

/-- One harness-loop step preserves the statistics invariants: the running
total of relative errors is at most `valid * max_error`, the maxima are
non-negative, and the overestimate maximum never exceeds the error maximum. -/
theorem Evaluation.trialStep_invariant {ε : Type} (estimate : List ℝ → Except ε ℝ)
    (acc : Evaluation.Accum) (t : List ℝ)
    (h1 : acc.total_relative_error ≤ (acc.valid_tests : ℝ) * acc.max_error)
    (h2 : 0 ≤ acc.max_error) (h3 : 0 ≤ acc.max_overestimate)
    (h4 : acc.max_overestimate ≤ acc.max_error) :
    (Evaluation.trialStep estimate acc t).total_relative_error ≤
        ((Evaluation.trialStep estimate acc t).valid_tests : ℝ) *
        (Evaluation.trialStep estimate acc t).max_error ∧
      0 ≤ (Evaluation.trialStep estimate acc t).max_error ∧
      0 ≤ (Evaluation.trialStep estimate acc t).max_overestimate ∧
      (Evaluation.trialStep estimate acc t).max_overestimate ≤
        (Evaluation.trialStep estimate acc t).max_error := by
  rcases hgm : Exact.geometric_mean t with err | x
  · simp only [Evaluation.trialStep, hgm]
    exact ⟨h1, h2, h3, h4⟩
  · rcases hest : estimate t with err | e
    · simp only [Evaluation.trialStep, hgm, hest]
      exact ⟨h1, h2, h3, h4⟩
    · have hx : 0 < x := Exact.geometric_mean_pos t x hgm
      have hrel0 : 0 ≤ |e - x| / x := div_nonneg (abs_nonneg _) hx.le
      have hsgn_le : (e - x) / x ≤ |e - x| / x :=
        (div_le_div_iff_of_pos_right hx).mpr (le_abs_self _)
      simp only [Evaluation.trialStep, hgm, hest]
      refine ⟨?_, ?_, ?_, ?_⟩
      · push_cast
        split_ifs with hgt
        · have hmono : (acc.valid_tests : ℝ) * acc.max_error ≤
              (acc.valid_tests : ℝ) * (|e - x| / x) :=
            mul_le_mul_of_nonneg_left hgt.le (Nat.cast_nonneg _)
          nlinarith
        · push_neg at hgt
          nlinarith [Nat.cast_nonneg (α := ℝ) acc.valid_tests]
      · split_ifs with hgt
        · exact hrel0
        · exact h2
      · split_ifs with hcond
        · exact hcond.1.le
        · exact h3
      · split_ifs with hcond hgt hgt2
        · exact hsgn_le
        · have := not_lt.mp hgt
          linarith
        · have := hgt2
          linarith
        · exact h4

/-- The harness fold preserves the statistics invariants. -/
theorem Evaluation.foldl_invariant {ε : Type} (estimate : List ℝ → Except ε ℝ)
    (trials : List (List ℝ)) :
    ∀ acc : Evaluation.Accum,
      acc.total_relative_error ≤ (acc.valid_tests : ℝ) * acc.max_error →
      0 ≤ acc.max_error → 0 ≤ acc.max_overestimate →
      acc.max_overestimate ≤ acc.max_error →
      (trials.foldl (Evaluation.trialStep estimate) acc).total_relative_error ≤
          ((trials.foldl (Evaluation.trialStep estimate) acc).valid_tests : ℝ) *
          (trials.foldl (Evaluation.trialStep estimate) acc).max_error ∧
        0 ≤ (trials.foldl (Evaluation.trialStep estimate) acc).max_error ∧
        0 ≤ (trials.foldl (Evaluation.trialStep estimate) acc).max_overestimate ∧
        (trials.foldl (Evaluation.trialStep estimate) acc).max_overestimate ≤
          (trials.foldl (Evaluation.trialStep estimate) acc).max_error := by
  induction trials with
  | nil =>
    intro acc ha hb hc hd
    exact ⟨ha, hb, hc, hd⟩
  | cons t rest ih =>
    intro acc ha hb hc hd
    rw [List.foldl_cons]
    obtain ⟨s1, s2, s3, s4⟩ := Evaluation.trialStep_invariant estimate acc t ha hb hc hd
    exact ih _ s1 s2 s3 s4

/-- A step on a trial that does not overestimate leaves a zero overestimate
maximum at zero. -/
theorem Evaluation.trialStep_no_over {ε : Type} (estimate : List ℝ → Except ε ℝ)
    (acc : Evaluation.Accum) (t : List ℝ)
    (hover : acc.max_overestimate = 0)
    (hle : ∀ x e, Exact.geometric_mean t = .ok x → estimate t = .ok e → e ≤ x) :
    (Evaluation.trialStep estimate acc t).max_overestimate = 0 := by
  rcases hgm : Exact.geometric_mean t with err | x
  · simp only [Evaluation.trialStep, hgm]
    exact hover
  · rcases hest : estimate t with err | e
    · simp only [Evaluation.trialStep, hgm, hest]
      exact hover
    · have hx : 0 < x := Exact.geometric_mean_pos t x hgm
      have hex : e ≤ x := hle x e hgm hest
      simp only [Evaluation.trialStep, hgm, hest]
      rw [if_neg, hover]
      rintro ⟨hpos, -⟩
      have hnp : (e - x) / x ≤ 0 := div_nonpos_of_nonpos_of_nonneg (by linarith) hx.le
      linarith

/-- The harness fold keeps a zero overestimate maximum when no trial
overestimates. -/
theorem Evaluation.foldl_no_over {ε : Type} (estimate : List ℝ → Except ε ℝ)
    (trials : List (List ℝ)) :
    ∀ acc : Evaluation.Accum, acc.max_overestimate = 0 →
      (∀ t ∈ trials, ∀ x e, Exact.geometric_mean t = .ok x → estimate t = .ok e → e ≤ x) →
      (trials.foldl (Evaluation.trialStep estimate) acc).max_overestimate = 0 := by
  induction trials with
  | nil =>
    intro acc hover _
    exact hover
  | cons t rest ih =>
    intro acc hover hnone
    rw [List.foldl_cons]
    refine ih _ ?_ fun w hw => hnone w (List.mem_cons_of_mem t hw)
    exact Evaluation.trialStep_no_over estimate acc t hover
      (hnone t (List.mem_cons_self t rest))

/-- **C9**: whenever a run of `evaluate_estimate` reports `total_tests > 0`,
its statistics satisfy `mean_absolute_relative_error ≤ worst_case_error` and
`0 ≤ worst_case_overestimate ≤ worst_case_error`; and if no valid trial
overestimated (every successful estimate is at most the exact mean), then
`worst_case_overestimate = 0`. -/
theorem C9_evaluate_estimate {σ ε : Type} (R : Evaluation.EvalRand σ)
    (estimate : List ℝ → Except ε ℝ) (rng : σ) (vmin vmax : ℝ) (num_tests : ℕ)
    (r : Evaluation.Results)
    (hr : r = Evaluation.evaluate_estimate R estimate rng vmin vmax num_tests)
    (hpos : 0 < r.total_tests) :
    (r.mean_absolute_relative_error ≤ r.worst_case_error ∧
      0 ≤ r.worst_case_overestimate ∧
      r.worst_case_overestimate ≤ r.worst_case_error) ∧
    ((∀ t ∈ (Evaluation.genTrials R vmin vmax num_tests rng).1, ∀ x e,
        Exact.geometric_mean t = .ok x → estimate t = .ok e → e ≤ x) →
      r.worst_case_overestimate = 0) := by
  have hinv := Evaluation.foldl_invariant estimate
    (Evaluation.genTrials R vmin vmax num_tests rng).1 ⟨0, 0, 0, 0, 0⟩
    (by norm_num) (by norm_num) (by norm_num) (by norm_num)
  set acc := (Evaluation.genTrials R vmin vmax num_tests rng).1.foldl
    (Evaluation.trialStep estimate) ⟨0, 0, 0, 0, 0⟩ with hacc
  obtain ⟨i1, i2, i3, i4⟩ := hinv
  by_cases hvalid : 0 < acc.valid_tests
  · have hr' : r = ⟨acc.total_relative_error / acc.valid_tests, acc.max_error,
        acc.max_overestimate, acc.total_signed_error / acc.valid_tests,
        acc.valid_tests⟩ := by
      rw [hr]
      simp only [Evaluation.evaluate_estimate]
      rw [← hacc, if_pos hvalid]
    constructor
    · refine ⟨?_, ?_, ?_⟩
      · rw [hr']
        have hvQ : (0 : ℝ) < (acc.valid_tests : ℝ) := by exact_mod_cast hvalid
        rw [div_le_iff₀ hvQ]
        calc acc.total_relative_error ≤ (acc.valid_tests : ℝ) * acc.max_error := i1
          _ = acc.max_error * (acc.valid_tests : ℝ) := by ring
      · rw [hr']
        exact i3
      · rw [hr']
        exact i4
    · intro hnone
      rw [hr']
      exact Evaluation.foldl_no_over estimate _ ⟨0, 0, 0, 0, 0⟩ rfl hnone
  · exfalso
    have hr' : r.total_tests = acc.valid_tests := by
      rw [hr]
      simp only [Evaluation.evaluate_estimate]
      rw [← hacc, if_neg hvalid]
    rw [hr'] at hpos
    exact hvalid hpos

/-- **C9** (witness): the statistics theorem applied to a concrete
deterministic run (one trial, one value `exp (ln 1) = 1`, exact estimator),
which reports `total_tests = 1` and all-zero error statistics. -/
theorem C9_witness :
    0 < (Evaluation.evaluate_estimate Evaluation.constRand Exact.geometric_mean
        () 1 1 1).total_tests ∧
    (Evaluation.evaluate_estimate Evaluation.constRand Exact.geometric_mean
        () 1 1 1).mean_absolute_relative_error ≤
      (Evaluation.evaluate_estimate Evaluation.constRand Exact.geometric_mean
        () 1 1 1).worst_case_error ∧
    (Evaluation.evaluate_estimate Evaluation.constRand Exact.geometric_mean
        () 1 1 1).worst_case_overestimate = 0 := by
  have hval : Real.exp (Real.log 1) = 1 := by
    rw [Real.log_one, Real.exp_zero]
  have htrials : (Evaluation.genTrials Evaluation.constRand 1 1 1 ()).1 =
      [[Real.exp (Real.log 1)]] := rfl
  have hgm : Exact.geometric_mean [Real.exp (Real.log 1)] = .ok 1 := by
    rw [hval]
    unfold Exact.geometric_mean
    rw [if_neg (by simp), if_neg ?_]
    · norm_num [Real.log_one, Real.exp_zero]
    · rintro ⟨v, hv, hle⟩
      simp only [List.mem_cons, List.not_mem_nil, or_false] at hv
      subst hv
      norm_num at hle
  have hstep : Evaluation.trialStep Exact.geometric_mean ⟨0, 0, 0, 0, 0⟩
      [Real.exp (Real.log 1)] = ⟨0, 0, 0, 0, 1⟩ := by
    simp only [Evaluation.trialStep, hgm]
    norm_num
  have hrun : Evaluation.evaluate_estimate Evaluation.constRand Exact.geometric_mean
      () 1 1 1 = ⟨0, 0, 0, 0, 1⟩ := by
    simp only [Evaluation.evaluate_estimate]
    rw [htrials, List.foldl_cons, hstep, List.foldl_nil, if_pos (by norm_num)]
    norm_num
  obtain ⟨h1, h2⟩ := C9_evaluate_estimate Evaluation.constRand Exact.geometric_mean
    () 1 1 1 _ rfl (by rw [hrun]; exact Nat.one_pos)
  refine ⟨by rw [hrun]; exact Nat.one_pos, h1.1, h2 ?_⟩
  intro t ht x e hgmx hgme
  rw [hgmx, Except.ok.injEq] at hgme
  exact le_of_eq hgme.symm

end PenPaper
